import Mathlib

/-!
Verification development for the rustar-cli ground-station client.

The Rust sources (src/main.rs, src/client.rs, src/error.rs) are shallowly
embedded below.  Pure functions become Lean functions; the interactive
prompts are modelled by an oracle of prompt outcomes; the HTTP transport is
modelled by an injected function from requests to outcomes, and the list of
requests issued is returned explicitly.  Third-party library behaviour that
the program relies on (chrono 0.4 parsing/formatting, Rust float and
integer `FromStr`, serde/serde_json field handling, inquire prompts,
reqwest status classification) is embedded following the libraries'
documented and actual semantics, since the program's observable behaviour
depends on them.
-/

/-- Error kinds of `chrono::format::ParseError` (chrono 0.4).  The
`Display` message of each kind is a fixed string (see `chronoMessage`);
nothing in the error value records which format item or input field
failed. -/
inductive PErrKind where
  | outOfRange
  | impossible
  | notEnough
  | invalid
  | tooShort
  | tooLong
  | badFormat
deriving DecidableEq, Repr

/-- Display strings of `chrono::format::ParseError`, from chrono 0.4
`format/mod.rs` (`ParseError::description`). -/
def chronoMessage : PErrKind → String
  | .outOfRange => "input is out of range"
  | .impossible => "no possible date and time matching input"
  | .notEnough => "input is not enough for unique date and time"
  | .invalid => "input contains invalid characters"
  | .tooShort => "premature end of input"
  | .tooLong => "trailing input"
  | .badFormat => "bad or unsupported format string"

/-- Digit-scanning loop of chrono `scan::number`: consume ASCII digits from
the front of `l`, at most `fuel` of them, folding the value; stop at the
first non-digit.  (chrono accumulates in `i64` and reports overflow as
OUT_OF_RANGE; here the value is a `Nat` and every overflowing path is
range-checked by the caller with the same OUT_OF_RANGE outcome.) -/
def scanCore : Nat → Nat → List Char → Nat × List Char
  | 0, acc, l => (acc, l)
  | _ + 1, acc, [] => (acc, [])
  | fuel + 1, acc, c :: rest =>
    if c.isDigit then scanCore fuel (acc * 10 + (c.toNat - 48)) rest
    else (acc, c :: rest)

/-- chrono `scan::number(s, 1, maxW)`: an empty input is TOO_SHORT, a
leading non-digit is INVALID, otherwise up to `maxW` digits are consumed. -/
def scanNumber (maxW : Nat) (l : List Char) : Except PErrKind (Nat × List Char) :=
  match l with
  | [] => .error .tooShort
  | c :: _ => if c.isDigit then .ok (scanCore maxW 0 l) else .error .invalid

/-- chrono `Item::Literal` matching for a one-character literal: input
shorter than the literal is TOO_SHORT, a mismatch is INVALID. -/
def parseLiteral (c : Char) (l : List Char) : Except PErrKind (List Char) :=
  match l with
  | [] => .error .tooShort
  | x :: rest => if x = c then .ok rest else .error .invalid

/-- chrono numeric item with width 2 and no sign (`%m`, `%d`, `%H`, `%M`,
`%S`): leading whitespace is skipped (`s = s.trim_left()` in
`format/parse.rs`), then 1 to 2 digits are scanned. -/
def parseNumeric2 (l : List Char) : Except PErrKind (Nat × List Char) :=
  scanNumber 2 (l.dropWhile Char.isWhitespace)

/-- chrono numeric item `%Y` (signed, width 4): leading whitespace is
skipped; an explicit `-`/`+` sign allows unlimited digits (fuel = full
length), otherwise 1 to 4 digits are scanned; the value is converted to
`i32` by `Parsed::set_year`, out-of-range values giving OUT_OF_RANGE
(chrono's i64 scan overflow is OUT_OF_RANGE as well, so the merged
range check is observably identical). -/
def parseNumericYear (l : List Char) : Except PErrKind (Int × List Char) :=
  let t := l.dropWhile Char.isWhitespace
  if t.head? = some ('-') then
    (scanNumber t.tail.length t.tail).bind (fun p =>
      if p.1 ≤ 2147483648 then .ok (-(p.1 : Int), p.2) else .error .outOfRange)
  else if t.head? = some ('+') then
    (scanNumber t.tail.length t.tail).bind (fun p =>
      if p.1 ≤ 2147483647 then .ok ((p.1 : Int), p.2) else .error .outOfRange)
  else
    (scanNumber 4 t).map (fun p => ((p.1 : Int), p.2))

/-- Observable content of `chrono::NaiveDate`: calendar year, month, day. -/
structure NDate where
  year : Int
  month : Nat
  day : Nat
deriving DecidableEq, Repr

/-- Observable content of `chrono::NaiveTime`: hour, minute, second and
nanosecond (the nanosecond exceeds 999 999 999 for a leap second). -/
structure NTime where
  hour : Nat
  minute : Nat
  second : Nat
  nano : Nat
deriving DecidableEq, Repr

/-- Proleptic-Gregorian leap-year rule used by chrono. -/
def isLeapYear (y : Int) : Bool :=
  (y % 4 == 0 && y % 100 != 0) || y % 400 == 0

/-- Number of days of month `m` of year `y` (chrono calendar). -/
def daysInMonth (y : Int) (m : Nat) : Nat :=
  if m = 2 then (if isLeapYear y then 29 else 28)
  else if m = 4 ∨ m = 6 ∨ m = 9 ∨ m = 11 then 30
  else 31

/-- `chrono::NaiveDate::from_ymd_opt`: `none` unless the year is within
chrono's representable range (−262144 ..= 262143) and month/day form a
valid calendar date. -/
def fromYmdOpt (y : Int) (m d : Nat) : Option NDate :=
  if -262144 ≤ y ∧ y ≤ 262143 ∧ 1 ≤ m ∧ m ≤ 12 ∧ 1 ≤ d ∧ d ≤ daysInMonth y m
  then some ⟨y, m, d⟩ else none

/-- `chrono::NaiveDate::parse_from_str(s, "%Y-%m-%d")`: items
`[%Y, '-', %m, '-', %d]` are matched in order, trailing input is
TOO_LONG, and resolution through `from_ymd_opt` reports OUT_OF_RANGE. -/
def parse_date (s : String) : Except PErrKind NDate :=
  (parseNumericYear s.data).bind (fun p1 =>
  (parseLiteral ('-') p1.2).bind (fun r2 =>
  (parseNumeric2 r2).bind (fun p2 =>
  (parseLiteral ('-') p2.2).bind (fun r4 =>
  (parseNumeric2 r4).bind (fun p3 =>
  if p3.2 = [] then
    match fromYmdOpt p1.1 p2.1 p3.1 with
    | some nd => .ok nd
    | none => .error .outOfRange
  else .error .tooLong)))))

/-- `chrono::NaiveTime::parse_from_str(s, "%H:%M:%S")`: items
`[%H, ':', %M, ':', %S]` in order.  `Parsed::set_hour` rejects hours ≥ 24
at the item (OUT_OF_RANGE); trailing input is TOO_LONG; resolution allows
second 60 as a leap second (stored as second 59 with nanosecond 10⁹) and
otherwise requires minute and second below 60 (OUT_OF_RANGE). -/
def parseTimeHMS (s : String) : Except PErrKind NTime :=
  (parseNumeric2 s.data).bind (fun p1 =>
  if 24 ≤ p1.1 then .error .outOfRange else
  (parseLiteral (':') p1.2).bind (fun r2 =>
  (parseNumeric2 r2).bind (fun p2 =>
  (parseLiteral (':') p2.2).bind (fun r4 =>
  (parseNumeric2 r4).bind (fun p3 =>
  if p3.2 = [] then
    if p3.1 = 60 then
      if p2.1 ≤ 59 then .ok ⟨p1.1, p2.1, 59, 1000000000⟩ else .error .outOfRange
    else if p2.1 ≤ 59 ∧ p3.1 ≤ 59 then .ok ⟨p1.1, p2.1, p3.1, 0⟩
    else .error .outOfRange
  else .error .tooLong)))))

/-- Observable content of `chrono::DateTime<Utc>` as used by the program:
`DateTime::<Utc>::from_naive_utc_and_offset(naive, Utc)` attaches the zero
offset and leaves every wall-clock field unchanged, so the value is the
pair of naive date and time fields. -/
structure DateTimeUtc where
  year : Int
  month : Nat
  day : Nat
  hour : Nat
  minute : Nat
  second : Nat
  nano : Nat
deriving DecidableEq, Repr

/-- Number of `:` characters in a string: Rust `time_str.matches(':').count()`. -/
def colonCount (s : String) : Nat := s.data.count ':'

/-- src/main.rs `parse_user_datetime`: the date string is parsed with
`"%Y-%m-%d"`; if the time string contains exactly one `:` then `":00"` is
appended before parsing with `"%H:%M:%S"`, otherwise the time string is
parsed directly with `"%H:%M:%S"`; the results are combined into a UTC
timestamp.  Both chrono errors are propagated unchanged (boxed). -/
def parse_user_datetime (date_str time_str : String) : Except PErrKind DateTimeUtc :=
  (parse_date date_str).bind (fun date =>
  (if colonCount time_str = 1
   then parseTimeHMS (time_str ++ (":00"))
   else parseTimeHMS time_str).bind (fun time =>
  .ok ⟨date.year, date.month, date.day, time.hour, time.minute, time.second, time.nano⟩))

/-- Exactly `w` decimal digit characters of `n` (most significant first,
truncating above 10^w); proof-side normal form of zero-padded printing. -/
def padDigits : Nat → Nat → List Char
  | 0, _ => []
  | w + 1, n => padDigits w (n / 10) ++ [Nat.digitChar (n % 10)]

/-- Minimal decimal digit string of `n` (fuelled so that it reduces in the
kernel; the fuel `n + 1` always suffices). -/
def natDigitsAux : Nat → Nat → List Char
  | 0, _ => []
  | fuel + 1, n =>
    if n < 10 then [Nat.digitChar n]
    else natDigitsAux fuel (n / 10) ++ [Nat.digitChar (n % 10)]

/-- Minimal decimal digit string of `n`. -/
def natDigits (n : Nat) : List Char := natDigitsAux (n + 1) n

/-- Decimal digits of `n` left-padded with `'0'` to a minimum width `w`
(never truncated): chrono `Pad::Zero` numeric formatting. -/
def zeroPad (w n : Nat) : List Char :=
  List.replicate (w - (natDigits n).length) ('0') ++ natDigits n

/-- The `YYYY-MM-DD` rendering of a (non-negative, at most 4-digit) year
with month and day: chrono `"%Y-%m-%d"` formatting restricted to the
all-numeric case. -/
def fmtDate (y m d : Nat) : String :=
  ⟨zeroPad 4 y ++ '-' :: (zeroPad 2 m ++ '-' :: zeroPad 2 d)⟩

/-- The `HH:MM:SS` rendering: chrono `"%H:%M:%S"` formatting. -/
def fmtTime (h mi se : Nat) : String :=
  ⟨zeroPad 2 h ++ ':' :: (zeroPad 2 mi ++ ':' :: zeroPad 2 se)⟩

/-- chrono `%Y` when formatting: zero-padded to width 4, with an explicit
sign whenever the year lies outside `0..10000`. -/
def yearChars (y : Int) : List Char :=
  (if y < 0 then ['-'] else if 10000 ≤ y then ['+'] else []) ++ zeroPad 4 y.natAbs

/-- Formatting a parsed timestamp back with `"%Y-%m-%d"`. -/
def formatDateOf (dt : DateTimeUtc) : String :=
  ⟨yearChars dt.year ++ '-' :: (zeroPad 2 dt.month ++ '-' :: zeroPad 2 dt.day)⟩

/-- Formatting a parsed timestamp back with `"%H:%M:%S"`; chrono `%S`
displays a leap second (nanosecond ≥ 10⁹) as 60. -/
def formatTimeOf (dt : DateTimeUtc) : String :=
  fmtTime dt.hour dt.minute (dt.second + dt.nano / 1000000000)

/-- A string matching the strict `YYYY-MM-DD` pattern whose fields form a
valid calendar date (the domain the specification calls a "valid
YYYY-MM-DD date string"). -/
def validDateStr (s : String) : Prop :=
  ∃ y m d : Nat, y ≤ 9999 ∧ 1 ≤ m ∧ m ≤ 12 ∧ 1 ≤ d ∧
    d ≤ daysInMonth (y : Int) m ∧ s = fmtDate y m d

/-- A string matching the strict `HH:MM:SS` pattern with in-range fields
(the domain the specification calls a "valid HH:MM:SS time string"). -/
def validTimeStr (s : String) : Prop :=
  ∃ h mi se : Nat, h ≤ 23 ∧ mi ≤ 59 ∧ se ≤ 59 ∧ s = fmtTime h mi se

/-- Rust `str::trim` (leading and trailing whitespace removed; Rust uses
the full Unicode White_Space property, of which the ASCII whitespace
recognised by `Char.isWhitespace` is the relevant fragment). -/
def rustTrim (s : String) : String :=
  ⟨((s.data.dropWhile Char.isWhitespace).reverse.dropWhile Char.isWhitespace).reverse⟩

/-- src/client.rs `TleData`: three free-text lines of an orbital element
set. -/
structure TleData where
  tle0 : String
  tle1 : String
  tle2 : String
deriving DecidableEq, Repr

/-- Pure core of src/main.rs `get_tle_input`: the three prompted strings
are trimmed and stored; nothing else is checked. -/
def get_tle_pure (sat_name tle_line1 tle_line2 : String) : TleData :=
  ⟨rustTrim sat_name, rustTrim tle_line1, rustTrim tle_line2⟩

/-- Rust `f64` values as observable by this program: finite values are
carried as the exact rational denoted by the accepted literal (IEEE-754
round-to-nearest is not modelled; for the integral literals the program's
tests use — below 2⁵³ — the rational equals the Rust value exactly). -/
inductive F64 where
  | finite (q : ℚ)
  | inf
  | negInf
  | nan
deriving DecidableEq, Repr

/-- Failure of Rust `"...".parse::<f64>()` (`ParseFloatError`). -/
inductive FloatParseError where
  | invalidFloat
deriving DecidableEq, Repr

/-- Value of a list of ASCII digit characters, most significant first. -/
def digitsToNat (l : List Char) : Nat :=
  l.foldl (fun a c => a * 10 + (c.toNat - 48)) 0

/-- Strip one leading `+` (false) or `-` (true) sign, as Rust numeric
`FromStr` implementations do. -/
def splitSign (l : List Char) : Bool × List Char :=
  if l.head? = some ('+') then (false, l.tail)
  else if l.head? = some ('-') then (true, l.tail)
  else (false, l)

/-- Case-insensitive ASCII comparison with a lowercase pattern
(`eq_ignore_ascii_case` in Rust's special-value parsing). -/
def lowerEq (l : List Char) (t : List Char) : Bool :=
  l.map Char.toLower == t

/-- Exponent part after the `e`/`E` marker: optional sign then at least
one digit, consuming the whole remaining input (Rust `dec2flt`). -/
def parseExpPart (l : List Char) : Option Int :=
  let p := splitSign l
  if p.2 ≠ [] ∧ p.2.all Char.isDigit then
    some (if p.1 then -(digitsToNat p.2 : Int) else (digitsToNat p.2 : Int))
  else none

/-- Exact rational denoted by integral digits `I` and fractional digits
`F`. -/
def mantVal (I F : List Char) : ℚ :=
  (digitsToNat I : ℚ) + (digitsToNat F : ℚ) / (10 : ℚ) ^ F.length

/-- Ten to an integer power, for applying a decimal exponent. -/
def qpow10 (e : Int) : ℚ := (10 : ℚ) ^ e

/-- Mantissa of a Rust float literal: digits, optionally a dot and more
digits, with at least one digit overall; returns the denoted rational and
the unconsumed rest (Rust `dec2flt::parse`). -/
def parseMantissa (l : List Char) : Option (ℚ × List Char) :=
  let I := l.takeWhile Char.isDigit
  let r1 := l.dropWhile Char.isDigit
  if r1.head? = some ('.') then
    let F := r1.tail.takeWhile Char.isDigit
    let r3 := r1.tail.dropWhile Char.isDigit
    if I = [] ∧ F = [] then none else some (mantVal I F, r3)
  else if I = [] then none else some ((digitsToNat I : ℚ), r1)

/-- Number part of a Rust float literal after the sign: mantissa followed
by nothing or by an exponent part, consuming the whole input. -/
def parseNumberF (l : List Char) : Option ℚ :=
  match parseMantissa l with
  | none => none
  | some p =>
    if p.2 = [] then some p.1
    else if p.2.head? = some ('e') ∨ p.2.head? = some ('E') then
      match parseExpPart p.2.tail with
      | some ex => some (p.1 * qpow10 ex)
      | none => none
    else none

/-- Rust `"...".parse::<f64>()` (`impl FromStr for f64`, core `dec2flt`):
optional sign, then either a case-insensitive special value
(`inf`/`infinity`/`nan`) or a decimal number; anything else fails with
`ParseFloatError`. -/
def rustParseF64 (s : String) : Except FloatParseError F64 :=
  if s.data = [] then .error .invalidFloat
  else
    let p := splitSign s.data
    if lowerEq p.2 (['i', 'n', 'f']) ∨ lowerEq p.2 (['i', 'n', 'f', 'i', 'n', 'i', 't', 'y']) then
      .ok (if p.1 then .negInf else .inf)
    else if lowerEq p.2 (['n', 'a', 'n']) then .ok .nan
    else
      match parseNumberF p.2 with
      | some q => .ok (.finite (if p.1 then -q else q))
      | none => .error .invalidFloat

/-- The documented grammar of Rust `f64::from_str` (std docs), exponent
part: `('e'|'E') Sign? Digit+`. -/
def isExpPart (l : List Char) : Prop :=
  ∃ e sg ds, l = e :: (sg ++ ds) ∧ (e = 'e' ∨ e = 'E') ∧
    (sg = [] ∨ sg = ['+'] ∨ sg = ['-']) ∧ ds ≠ [] ∧ (∀ c ∈ ds, c.isDigit = true)

/-- The documented grammar of Rust `f64::from_str`, number part:
`Digit+ '.' Digit* Exp?` or `'.' Digit+ Exp?` or `Digit+ Exp?`. -/
def isNumberPart (l : List Char) : Prop :=
  ∃ mant ex, l = mant ++ ex ∧ (ex = [] ∨ isExpPart ex) ∧
    ((∃ I F, mant = I ++ '.' :: F ∧ I ≠ [] ∧ (∀ c ∈ I, c.isDigit = true) ∧
        (∀ c ∈ F, c.isDigit = true))
     ∨ (∃ F, mant = '.' :: F ∧ F ≠ [] ∧ (∀ c ∈ F, c.isDigit = true))
     ∨ (mant ≠ [] ∧ ∀ c ∈ mant, c.isDigit = true))

/-- The documented grammar of Rust `f64::from_str`, whole literal:
`Sign? ('inf' | 'infinity' | 'nan' | Number)`, specials ASCII
case-insensitive.  This is what "a valid decimal number" accepted by the
frequency prompt denotes. -/
def validFloatString (s : String) : Prop :=
  ∃ sg body, s.data = sg ++ body ∧ (sg = [] ∨ sg = ['+'] ∨ sg = ['-']) ∧
    (lowerEq body (['i', 'n', 'f']) = true ∨
     lowerEq body (['i', 'n', 'f', 'i', 'n', 'i', 't', 'y']) = true ∨
     lowerEq body (['n', 'a', 'n']) = true ∨
     isNumberPart body)

/-- Errors that abort the interactive collection flow in src/main.rs (all
boxed into `Box<dyn Error>` by `?`): a prompt failure from inquire, a
chrono parse failure, or a float parse failure. -/
inductive PromptError where
  | interrupted
  | ioFailure
deriving DecidableEq, Repr

/-- Boxed error surfaced by `collect_job_info` and its helpers. -/
inductive CollectError where
  | prompt (e : PromptError)
  | datetime (e : PErrKind)
  | frequency (e : FloatParseError)
deriving DecidableEq, Repr

/-- Pure core of src/main.rs `get_frequency_input`: the prompted string is
parsed with `str::parse::<f64>()` and the error boxed. -/
def get_frequency_input (freq_str : String) : Except CollectError F64 :=
  Except.mapError CollectError.frequency (rustParseF64 freq_str)

/-- Outcomes of the successive `inquire::Text::prompt()` calls, indexed by
the order in which prompts are executed. -/
def Oracle : Type := Nat → Except PromptError String

/-- A step of the interactive flow: given the prompt oracle and the index
of the next prompt, produce a result and the index after the executed
prompts. -/
def Step (α : Type) : Type := Oracle → Nat → Except CollectError α × Nat

/-- Return without prompting. -/
def stepPure {α : Type} (a : α) : Step α := fun _ i => (.ok a, i)

/-- Rust `?`-sequencing of two steps: on error the computation stops and
no further prompt runs. -/
def stepBind {α β : Type} (m : Step α) (f : α → Step β) : Step β := fun o i =>
  match m o i with
  | (.ok a, j) => f a o j
  | (.error e, j) => (.error e, j)

/-- One `inquire::Text::prompt()` call: consumes the next oracle entry
(the label and placeholder are presentation only and carry no data). -/
def stepPrompt : Step String := fun o i =>
  (match o i with
   | .ok s => .ok s
   | .error e => .error (CollectError.prompt e), i + 1)

/-- Lift a pure fallible computation (no prompt executed). -/
def stepLift {α : Type} (r : Except CollectError α) : Step α := fun _ i => (r, i)

/-- src/main.rs `get_datetime_input`: prompts for a date string and a time
string, then parses them with `parse_user_datetime`. -/
def get_datetime_input : Step DateTimeUtc :=
  stepBind stepPrompt (fun date =>
  stepBind stepPrompt (fun time =>
  stepLift (Except.mapError CollectError.datetime (parse_user_datetime date time))))

/-- src/main.rs `get_tle_input`: prompts for the satellite name and the
two element lines, trims each, and builds the `TleData`. -/
def get_tle_input : Step TleData :=
  stepBind stepPrompt (fun sat_name =>
  stepBind stepPrompt (fun tle_line1 =>
  stepBind stepPrompt (fun tle_line2 =>
  stepPure (get_tle_pure sat_name tle_line1 tle_line2))))

/-- src/main.rs `get_frequency_input` as an interactive step. -/
def get_frequency_input_step : Step F64 :=
  stepBind stepPrompt (fun freq_str => stepLift (get_frequency_input freq_str))

/-- src/main.rs `UserInput`: all collected job parameters. -/
structure UserInput where
  start_datetime : DateTimeUtc
  end_datetime : DateTimeUtc
  tle_data : TleData
  rx_frequency : F64
  tx_frequency : F64
deriving DecidableEq, Repr

/-- src/main.rs `collect_job_info`: start and end timestamps, element set
and both frequencies are collected in order, each `?` aborting on the
first failure. -/
def collect_job_info : Step UserInput :=
  stepBind get_datetime_input (fun start_datetime =>
  stepBind get_datetime_input (fun end_datetime =>
  stepBind get_tle_input (fun tle_data =>
  stepBind get_frequency_input_step (fun rx_frequency =>
  stepBind get_frequency_input_step (fun tx_frequency =>
  stepPure ⟨start_datetime, end_datetime, tle_data, rx_frequency, tx_frequency⟩)))))

/-- JSON documents as produced by serde_json. -/
inductive Json where
  | str (s : String)
  | num (q : ℚ)
  | nullJ
  | boolJ (b : Bool)
  | arr (xs : List Json)
  | obj (fields : List (String × Json))

/-- serde_json rendering of an `f64` value: non-finite values serialize as
`null`. -/
def jsonOfF64 : F64 → Json
  | .finite q => .num q
  | _ => .nullJ

/-- Fractional-second digits printed by chrono `%.f`-style auto
formatting: nothing for zero nanoseconds, otherwise 3, 6 or 9 digits. -/
def fracChars (nano : Nat) : List Char :=
  if nano = 0 then []
  else if nano % 1000000 = 0 then '.' :: zeroPad 3 (nano / 1000000)
  else if nano % 1000 = 0 then '.' :: zeroPad 6 (nano / 1000)
  else '.' :: zeroPad 9 nano

/-- chrono's serde serialization of `DateTime<Utc>`: the RFC 3339 style
`YYYY-MM-DDTHH:MM:SS[.fff]Z` string. -/
def rfc3339 (dt : DateTimeUtc) : String :=
  ⟨(formatDateOf dt).data ++ 'T' :: ((formatTimeOf dt).data ++ fracChars (dt.nano % 1000000000)) ++ ['Z']⟩

/-- serde `Serialize` of `TleData` (derived): fields in declaration
order. -/
def TleData.toJson (t : TleData) : Json :=
  .obj [("tle0", .str t.tle0), ("tle1", .str t.tle1), ("tle2", .str t.tle2)]

/-- src/client.rs `JobRequestDTO`: the transfer object serialized and
posted.  (`end` is a reserved word in Lean, hence the quoted field
name.) -/
structure JobRequestDTO where
  start : DateTimeUtc
  «end» : DateTimeUtc
  tle : TleData
  rx_frequency : F64
  tx_frequency : F64
deriving DecidableEq, Repr

/-- serde `Serialize` of `JobRequestDTO` (derived): fields in declaration
order with their Rust names. -/
def JobRequestDTO.toJson (j : JobRequestDTO) : Json :=
  .obj [("start", .str (rfc3339 j.start)),
        ("end", .str (rfc3339 j.«end»)),
        ("tle", TleData.toJson j.tle),
        ("rx_frequency", jsonOfF64 j.rx_frequency),
        ("tx_frequency", jsonOfF64 j.tx_frequency)]

/-- src/client.rs `ApiResponse`: required `status` string and optional
`message`. -/
structure ApiResponse where
  status : String
  message : Option String
deriving DecidableEq, Repr

/-- Failure modes of deserializing a response body into `ApiResponse`. -/
inductive DecodeError where
  | notJson
  | typeMismatch
  | missingField
deriving DecidableEq, Repr

/-- First value of a JSON object field, by name. -/
def jsonLookup (fields : List (String × Json)) (k : String) : Option Json :=
  (fields.find? (fun p => p.1 == k)).map Prod.snd

/-- serde `Deserialize` of `ApiResponse` (derived): `status` must be
present and a string; `message` may be absent or null (giving `none`) or a
string; other shapes fail.  Unknown fields are ignored; serde's
duplicate-field error is not modelled (the claims never feed duplicate
keys). -/
def decodeApiResponse (body : Json) : Except DecodeError ApiResponse :=
  match body with
  | .obj fs =>
    match jsonLookup fs ("status") with
    | some (.str st) =>
      match jsonLookup fs ("message") with
      | none => .ok ⟨st, none⟩
      | some .nullJ => .ok ⟨st, none⟩
      | some (.str m) => .ok ⟨st, some m⟩
      | some _ => .error .typeMismatch
    | some _ => .error .typeMismatch
    | none => .error .missingField
  | _ => .error .notJson

/-- An HTTP request as assembled by `ApiClient::add_job`. -/
structure HttpRequest where
  url : String
  contentType : String
  body : Json

/-- Outcome of the underlying reqwest call: a transport failure, or a
response with a status code and a body (`none` when the body is not valid
JSON). -/
inductive TransportOutcome where
  | netFailure
  | response (status : Nat) (body : Option Json)

/-- The injected network layer. -/
def Transport : Type := HttpRequest → TransportOutcome

/-- Payload of `reqwest::Error` as distinguished by this program. -/
inductive ReqwestError where
  | network
  | status (code : Nat)
  | decode
deriving DecidableEq, Repr

/-- src/error.rs `CliError`. -/
inductive CliError where
  | HttpError (e : ReqwestError)
  | ConfigurationError (msg : String)
deriving DecidableEq, Repr

/-- src/error.rs `Display for CliError`. -/
def CliError.display : CliError → String
  | .HttpError _ => "HTTP request failed"
  | .ConfigurationError msg => String.append ("Configuration error: ") msg

/-- The single request `ApiClient::add_job` builds: POST to
`{base_url}/jobs` with content type `application/json` and the serialized
job as body. -/
def jobsRequest (base_url : String) (job : JobRequestDTO) : HttpRequest :=
  ⟨base_url ++ ("/jobs"), "application/json", JobRequestDTO.toJson job⟩

/-- src/client.rs `ApiClient::add_job`: issues exactly one POST (returned
explicitly as the request list); a transport failure or a non-success
status (outside 200..=299, via `error_for_status`) is an `HttpError`; on a
success status the body is deserialized into `ApiResponse`, a failure
being surfaced as an `HttpError`.  No retry exists. -/
def add_job (base_url : String) (job : JobRequestDTO) (transport : Transport) :
    List HttpRequest × Except CliError ApiResponse :=
  ([jobsRequest base_url job],
   match transport (jobsRequest base_url job) with
   | .netFailure => .error (.HttpError .network)
   | .response status body =>
     if 200 ≤ status ∧ status ≤ 299 then
       match body with
       | none => .error (.HttpError .decode)
       | some j =>
         match decodeApiResponse j with
         | .ok r => .ok r
         | .error _ => .error (.HttpError .decode)
     else .error (.HttpError (.status status)))

/-- Pure request assembly inside src/main.rs `submit_job`: the
`JobRequestDTO` literal built from the collected input, field by field. -/
def jobRequestOfInput (input : UserInput) : JobRequestDTO :=
  { start := input.start_datetime,
    «end» := input.end_datetime,
    tle := input.tle_data,
    rx_frequency := input.rx_frequency,
    tx_frequency := input.tx_frequency }

/-- src/main.rs `submit_job`: assembles the DTO and calls
`ApiClient::add_job` once, propagating its outcome. -/
def submit_job (base_url : String) (input : UserInput) (transport : Transport) :
    List HttpRequest × Except CliError ApiResponse :=
  add_job base_url (jobRequestOfInput input) transport

/-- Failure of Rust `"...".parse::<u64>()` (`ParseIntError`). -/
inductive IntParseError where
  | emptyInput
  | invalidDigit
  | posOverflow
deriving DecidableEq, Repr

/-- Rust `"...".parse::<u64>()` (core `from_str_radix`, base 10): empty
input fails; one leading `+` is allowed and a leading `-` is an invalid
digit for an unsigned type; otherwise all characters must be digits and
the value must fit in 64 bits.  (Rust detects overflow digit by digit and
may report `posOverflow` where a later character is invalid; both are
errors, and the program only observes `is_ok`, via `unwrap_or`.) -/
def rustParseU64 (s : String) : Except IntParseError Nat :=
  match s.data with
  | [] => .error .emptyInput
  | c :: rest =>
    if c = '-' then .error .invalidDigit
    else
      let ds := if c = '+' then rest else c :: rest
      if ds = [] then .error .invalidDigit
      else if ds.all Char.isDigit then
        if digitsToNat ds < 18446744073709551616 then .ok (digitsToNat ds)
        else .error .posOverflow
      else .error .invalidDigit

/-- The process environment as read through `std::env::var` (after
`dotenv::dotenv().ok()` has merged any `.env` file): `none` when the
variable is unset. -/
def EnvMap : Type := String → Option String

/-- Configuration held by src/client.rs `ApiClient` (the reqwest client
itself carries the timeout). -/
structure ApiClientCfg where
  base_url : String
  timeout_seconds : Nat
deriving DecidableEq, Repr

/-- src/client.rs `ApiClient::new`: `API_BASE_URL` defaults to
`http://localhost:3000` when unset; `API_TIMEOUT_SECONDS` defaults to the
string `"30"` when unset and is parsed as `u64`, `unwrap_or(30)` turning
any parse failure into 30.  `reqwest::Client::builder().build()` is
modelled as succeeding: its failure depends only on TLS backend
initialization, never on these environment variables. -/
def ApiClient.new (env : EnvMap) : Except CliError ApiClientCfg :=
  let base_url := (env ("API_BASE_URL")).getD ("http://localhost:3000")
  let timeout_seconds :=
    match rustParseU64 ((env ("API_TIMEOUT_SECONDS")).getD ("30")) with
    | .ok v => v
    | .error _ => 30
  .ok ⟨base_url, timeout_seconds⟩

/-- An integer numeral: optional sign followed by at least one digit.
"Non-integer" inputs in the configuration claims are strings not of this
shape. -/
def isIntLiteralStr (s : String) : Prop :=
  ∃ sg ds, s.data = sg ++ ds ∧ (sg = [] ∨ sg = ['+'] ∨ sg = ['-']) ∧
    ds ≠ [] ∧ (∀ c ∈ ds, c.isDigit = true)

/-- Count monotonicity of an interactive step: prompts are only ever
consumed, never unconsumed. -/
def StepMono {α : Type} (m : Step α) : Prop := ∀ o i, i ≤ (m o i).2

/-- Locality of an interactive step: its outcome depends only on the
prompt outcomes it actually consumed — prompts at or beyond the final
index are never examined. -/
def StepLocal {α : Type} (m : Step α) : Prop :=
  ∀ o o' i, (∀ j, i ≤ j → j < (m o i).2 → o j = o' j) → m o i = m o' i

/-- Oracle whose first (satellite-name) prompt answer is whitespace
only. -/
def tleOracleBlank : Oracle := fun n => .ok (if n = 0 then "  " else "x")

/-- Oracle whose every prompt is interrupted. -/
def failOracle : Oracle := fun _ => .error .interrupted

/-- Transport that always answers HTTP 500 with an empty body. -/
def witTransport : Transport := fun _ => .response 500 none

/-- A concrete job request used to instantiate the submission claims. -/
def witJob : JobRequestDTO :=
  ⟨⟨2025, 10, 2, 12, 0, 0, 0⟩, ⟨2025, 10, 2, 12, 15, 0, 0⟩,
   ⟨"ISS (ZARYA)", "1 25544U", "2 25544"⟩, .finite 145800000, .finite 437500000⟩

/-- Environment with a non-numeric timeout setting. -/
def envTimeoutAbc : EnvMap := fun k =>
  if k = "API_TIMEOUT_SECONDS" then some ("abc") else none

/-- Environment with a negative integer timeout setting. -/
def envTimeoutNeg : EnvMap := fun k =>
  if k = "API_TIMEOUT_SECONDS" then some ("-5") else none

/-! Auxiliary facts about digits, padding and scanning. -/

/-- Facts about a single decimal digit character. -/
lemma digitChar_props (n : Nat) (h : n < 10) :
    (Nat.digitChar n).isDigit = true ∧ (Nat.digitChar n).isWhitespace = false ∧
    Nat.digitChar n ≠ '-' ∧ Nat.digitChar n ≠ '+' ∧ Nat.digitChar n ≠ ':' ∧
    Nat.digitChar n ≠ '.' ∧ (Nat.digitChar n).toNat = 48 + n := by
  interval_cases n <;> decide

lemma padDigits_length (w n : Nat) : (padDigits w n).length = w := by
  induction w generalizing n with
  | zero => rfl
  | succ w ih => simp [padDigits, ih]

lemma padDigits_mem_digitChar (w n : Nat) :
    ∀ c ∈ padDigits w n, ∃ k, k < 10 ∧ c = Nat.digitChar k := by
  induction w generalizing n with
  | zero => intro c hc; simp [padDigits] at hc
  | succ w ih =>
    intro c hc
    simp only [padDigits, List.mem_append, List.mem_singleton] at hc
    rcases hc with hc | hc
    · exact ih (n / 10) c hc
    · exact ⟨n % 10, Nat.mod_lt n (by omega), hc⟩

lemma padDigits_mem_digit (w n : Nat) : ∀ c ∈ padDigits w n, c.isDigit = true := by
  intro c hc
  obtain ⟨k, hk, rfl⟩ := padDigits_mem_digitChar w n c hc
  exact (digitChar_props k hk).1

lemma padDigits_zero (w : Nat) : padDigits w 0 = List.replicate w '0' := by
  induction w with
  | zero => rfl
  | succ w ih =>
    simp [padDigits, ih, List.replicate_succ', show Nat.digitChar 0 = '0' from rfl]

lemma scanCore_pad (w k acc n : Nat) (rest : List Char) (h : n < 10 ^ w) :
    scanCore (w + k) acc (padDigits w n ++ rest) = scanCore k (acc * 10 ^ w + n) rest := by
  induction w generalizing acc k n rest with
  | zero =>
    have hn : n = 0 := by simpa using h
    subst hn
    simp [padDigits]
  | succ w ih =>
    have hdiv : n / 10 < 10 ^ w := by
      have hp : (10 : Nat) ^ (w + 1) = 10 ^ w * 10 := pow_succ 10 w
      omega
    have hlt : n % 10 < 10 := Nat.mod_lt n (by omega)
    have hstep : padDigits (w + 1) n ++ rest
        = padDigits w (n / 10) ++ (Nat.digitChar (n % 10) :: rest) := by
      simp [padDigits]
    rw [hstep, show w + 1 + k = w + (k + 1) by omega,
      ih (k + 1) acc (n / 10) (Nat.digitChar (n % 10) :: rest) hdiv]
    have hdig := digitChar_props (n % 10) hlt
    simp only [scanCore, hdig.1, if_true, hdig.2.2.2.2.2.2]
    have harith : (acc * 10 ^ w + n / 10) * 10 + (48 + n % 10 - 48)
        = acc * 10 ^ (w + 1) + n := by
      have hmod : 10 * (n / 10) + n % 10 = n := Nat.div_add_mod n 10
      have hp : (10 : Nat) ^ (w + 1) = 10 ^ w * 10 := pow_succ 10 w
      calc (acc * 10 ^ w + n / 10) * 10 + (48 + n % 10 - 48)
          = acc * (10 ^ w * 10) + (10 * (n / 10) + n % 10) := by ring_nf; omega
        _ = acc * 10 ^ (w + 1) + n := by rw [hmod, ← hp]
    rw [harith]

lemma scanCore_pad_exact (w acc n : Nat) (rest : List Char) (h : n < 10 ^ w) :
    scanCore w acc (padDigits w n ++ rest) = (acc * 10 ^ w + n, rest) := by
  have := scanCore_pad w 0 acc n rest h
  simpa [scanCore] using this

lemma pad_append_head (w n : Nat) (rest : List Char) (hw : w ≠ 0) :
    ∃ k t, padDigits w n ++ rest = Nat.digitChar k :: t ∧ k < 10 := by
  rcases hx : padDigits w n with _ | ⟨c, t⟩
  · have := padDigits_length w n
    rw [hx] at this
    simp at this
    omega
  · obtain ⟨k, hk, hck⟩ := padDigits_mem_digitChar w n c (hx ▸ List.mem_cons_self c t)
    exact ⟨k, t ++ rest, by rw [hck, List.cons_append], hk⟩

lemma scanNumber_cons_digit (maxW : Nat) (c : Char) (t : List Char) (hc : c.isDigit = true) :
    scanNumber maxW (c :: t) = .ok (scanCore maxW 0 (c :: t)) := by
  simp [scanNumber, hc]

lemma scanNumber_pad (w n : Nat) (rest : List Char) (hw : w ≠ 0) (h : n < 10 ^ w) :
    scanNumber w (padDigits w n ++ rest) = .ok (n, rest) := by
  obtain ⟨k, t, hct, hk⟩ := pad_append_head w n rest hw
  rw [hct, scanNumber_cons_digit w _ t (digitChar_props k hk).1, ← hct,
    scanCore_pad_exact w 0 n rest h]
  simp

lemma dropWhile_ws_pad (w n : Nat) (rest : List Char) (hw : w ≠ 0) :
    (padDigits w n ++ rest).dropWhile Char.isWhitespace = padDigits w n ++ rest := by
  obtain ⟨k, t, hct, hk⟩ := pad_append_head w n rest hw
  rw [hct, List.dropWhile_cons, (digitChar_props k hk).2.1]
  simp

lemma parseNumeric2_pad (n : Nat) (rest : List Char) (h : n < 100) :
    parseNumeric2 (padDigits 2 n ++ rest) = .ok (n, rest) := by
  unfold parseNumeric2
  rw [dropWhile_ws_pad 2 n rest (by omega),
    scanNumber_pad 2 n rest (by omega) (by norm_num; omega)]

lemma parseNumericYear_pad (y : Nat) (rest : List Char) (h : y < 10000) :
    parseNumericYear (padDigits 4 y ++ rest) = .ok ((y : Int), rest) := by
  obtain ⟨k, t, hct, hk⟩ := pad_append_head 4 y rest (by omega)
  have hprops := digitChar_props k hk
  simp only [parseNumericYear]
  rw [dropWhile_ws_pad 4 y rest (by omega), hct]
  simp only [List.head?_cons, Option.some.injEq, hprops.2.2.1, hprops.2.2.2.1, if_false]
  rw [← hct, scanNumber_pad 4 y rest (by omega) (by norm_num; omega)]
  rfl

/-! Relating minimal digit strings to fixed-width padding. -/

lemma natDigitsAux_irrel (f g n : Nat) (hf : n < f) (hg : n < g) :
    natDigitsAux f n = natDigitsAux g n := by
  induction f generalizing g n with
  | zero => omega
  | succ f ih =>
    rcases g with _ | g
    · omega
    · simp only [natDigitsAux]
      by_cases hn : n < 10
      · simp [hn]
      · have h10 : 10 ≤ n := by omega
        have hd : n / 10 < n := Nat.div_lt_self (by omega) (by omega)
        simp only [hn, if_false]
        rw [ih g (n / 10) (by omega) (by omega)]

lemma natDigits_lt10 (n : Nat) (h : n < 10) : natDigits n = [Nat.digitChar n] := by
  simp [natDigits, natDigitsAux, h]

lemma natDigits_ge10 (n : Nat) (h : 10 ≤ n) :
    natDigits n = natDigits (n / 10) ++ [Nat.digitChar (n % 10)] := by
  have hd : n / 10 < n := Nat.div_lt_self (by omega) (by omega)
  have h1 : natDigits n = natDigitsAux n (n / 10) ++ [Nat.digitChar (n % 10)] := by
    rw [natDigits]
    simp only [natDigitsAux, Nat.not_lt.2 h, if_false]
  rw [h1, natDigitsAux_irrel n (n / 10 + 1) (n / 10) (by omega) (by omega)]
  rfl

lemma zeroPad_eq_padDigits (w n : Nat) (hw : w ≠ 0) (h : n < 10 ^ w) :
    zeroPad w n = padDigits w n := by
  induction w generalizing n with
  | zero => omega
  | succ w ih =>
    by_cases hn : n < 10
    · have hnd : natDigits n = [Nat.digitChar n] := natDigits_lt10 n hn
      have hdiv : n / 10 = 0 := Nat.div_eq_of_lt hn
      have hmod : n % 10 = n := Nat.mod_eq_of_lt hn
      simp only [zeroPad, hnd, List.length_singleton, padDigits, hdiv, hmod,
        padDigits_zero]
      rfl
    · have h10 : 10 ≤ n := by omega
      have hw0 : w ≠ 0 := by
        rcases Nat.eq_zero_or_pos w with hw' | hw'
        · subst hw'; simp at h; omega
        · omega
      have hdiv : n / 10 < 10 ^ w := by
        have hp : (10 : Nat) ^ (w + 1) = 10 ^ w * 10 := pow_succ 10 w
        omega
      have hnd : natDigits n = natDigits (n / 10) ++ [Nat.digitChar (n % 10)] :=
        natDigits_ge10 n h10
      have hzp : zeroPad w (n / 10) = padDigits w (n / 10) := ih (n / 10) hw0 hdiv
      simp only [zeroPad] at hzp
      simp only [zeroPad, hnd, List.length_append, List.length_singleton]
      rw [show w + 1 - ((natDigits (n / 10)).length + 1) = w - (natDigits (n / 10)).length
        by omega, ← List.append_assoc, hzp]
      simp [padDigits]

lemma fmtDate_data (y m d : Nat) (hy : y < 10000) (hm : m < 100) (hd : d < 100) :
    (fmtDate y m d).data = padDigits 4 y ++ '-' :: (padDigits 2 m ++ '-' :: padDigits 2 d) := by
  simp only [fmtDate, zeroPad_eq_padDigits 4 y (by omega) (by norm_num; omega),
    zeroPad_eq_padDigits 2 m (by omega) (by norm_num; omega),
    zeroPad_eq_padDigits 2 d (by omega) (by norm_num; omega)]

lemma fmtTime_data (h mi se : Nat) (hh : h < 100) (hmi : mi < 100) (hse : se < 100) :
    (fmtTime h mi se).data = padDigits 2 h ++ ':' :: (padDigits 2 mi ++ ':' :: padDigits 2 se) := by
  simp only [fmtTime, zeroPad_eq_padDigits 2 h (by omega) (by norm_num; omega),
    zeroPad_eq_padDigits 2 mi (by omega) (by norm_num; omega),
    zeroPad_eq_padDigits 2 se (by omega) (by norm_num; omega)]

lemma parseLiteral_cons (c : Char) (r : List Char) : parseLiteral c (c :: r) = .ok r := by
  simp [parseLiteral]

lemma exceptBind_ok {ε α β : Type} (a : α) (f : α → Except ε β) :
    Except.bind (Except.ok a : Except ε α) f = f a := rfl

lemma exceptBind_error {ε α β : Type} (e : ε) (f : α → Except ε β) :
    Except.bind (Except.error e : Except ε α) f = Except.error e := rfl

lemma parseNumeric2_pad_nil (n : Nat) (h : n < 100) :
    parseNumeric2 (padDigits 2 n) = .ok (n, []) := by
  have := parseNumeric2_pad n [] h
  simpa using this

/-! Parsing the canonical renderings. -/

lemma parse_date_fmt (y m d : Nat) (hy : y ≤ 9999) (hm1 : 1 ≤ m) (hm2 : m ≤ 12)
    (hd1 : 1 ≤ d) (hd2 : d ≤ daysInMonth (y : Int) m) :
    parse_date (fmtDate y m d) = .ok ⟨(y : Int), m, d⟩ := by
  have hdm : daysInMonth (y : Int) m ≤ 31 := by
    unfold daysInMonth
    split
    · split <;> omega
    · split <;> omega
  unfold parse_date
  rw [fmtDate_data y m d (by omega) (by omega) (by omega),
    parseNumericYear_pad y _ (by omega), exceptBind_ok, parseLiteral_cons, exceptBind_ok,
    parseNumeric2_pad m _ (by omega), exceptBind_ok, parseLiteral_cons, exceptBind_ok,
    parseNumeric2_pad_nil d (by omega), exceptBind_ok]
  have hcond : -262144 ≤ (y : Int) ∧ (y : Int) ≤ 262143 ∧ 1 ≤ m ∧ m ≤ 12 ∧ 1 ≤ d ∧
      d ≤ daysInMonth (y : Int) m :=
    ⟨by omega, by omega, hm1, hm2, hd1, hd2⟩
  simp only [if_pos rfl]
  unfold fromYmdOpt
  rw [if_pos hcond]
  simp

lemma parseTimeHMS_fmt (h mi se : Nat) (hh : h ≤ 23) (hmi : mi ≤ 59) (hse : se ≤ 59) :
    parseTimeHMS (fmtTime h mi se) = .ok ⟨h, mi, se, 0⟩ := by
  unfold parseTimeHMS
  rw [fmtTime_data h mi se (by omega) (by omega) (by omega),
    parseNumeric2_pad h _ (by omega), exceptBind_ok, if_neg (by omega : ¬ 24 ≤ h),
    parseLiteral_cons, exceptBind_ok, parseNumeric2_pad mi _ (by omega), exceptBind_ok,
    parseLiteral_cons, exceptBind_ok, parseNumeric2_pad_nil se (by omega), exceptBind_ok]
  rw [if_pos rfl, if_neg (by omega : ¬ se = 60),
    if_pos (⟨by omega, by omega⟩ : mi ≤ 59 ∧ se ≤ 59)]

lemma string_data_append (s t : String) : (s ++ t).data = s.data ++ t.data := by
  cases s; cases t; rfl

lemma padDigits_count_colon (w n : Nat) : (padDigits w n).count ':' = 0 := by
  rw [List.count_eq_zero]
  intro hmem
  obtain ⟨k, hk, hck⟩ := padDigits_mem_digitChar w n ':' hmem
  exact (digitChar_props k hk).2.2.2.2.1 hck.symm

lemma colonCount_append_00 (t : String) : colonCount (t ++ (":00")) = colonCount t + 1 := by
  unfold colonCount
  rw [string_data_append, List.count_append]
  norm_num [show List.count ':' ((":00").data) = 1 from rfl]

lemma colonCount_fmtTime (h mi se : Nat) (hh : h < 100) (hmi : mi < 100) (hse : se < 100) :
    colonCount (fmtTime h mi se) = 2 := by
  unfold colonCount
  rw [fmtTime_data h mi se hh hmi hse]
  simp [List.count_append, List.count_cons, padDigits_count_colon]

lemma daysInMonth_le_31 (y : Int) (m : Nat) : daysInMonth y m ≤ 31 := by
  unfold daysInMonth
  split
  · split <;> omega
  · split <;> omega

/-- C1: a time string with exactly one colon has `":00"` appended and is
then parsed as `HH:MM:SS` (so `"12:00"` behaves as `"12:00:00"`), and a
time string with any other number of colons is parsed directly as
`HH:MM:SS`. -/
theorem claim_c1 (d t : String) :
    (colonCount t = 1 → parse_user_datetime d t = parse_user_datetime d (t ++ (":00")))
    ∧ (colonCount t ≠ 1 →
        parse_user_datetime d t = (parse_date d).bind (fun nd =>
          (parseTimeHMS t).map (fun nt =>
            ⟨nd.year, nd.month, nd.day, nt.hour, nt.minute, nt.second, nt.nano⟩))) := by
  constructor
  · intro h1
    unfold parse_user_datetime
    rw [if_pos h1, if_neg (by rw [colonCount_append_00, h1]; omega)]
  · intro h2
    unfold parse_user_datetime
    rw [if_neg h2]
    cases hpd : parse_date d with
    | error e => simp [Except.bind]
    | ok nd =>
      cases hpt : parseTimeHMS t with
      | error e => simp [Except.bind, Except.map]
      | ok nt => simp [Except.bind, Except.map]

/-- Witness for C1 at `"12:00"`: one colon, so the parse agrees with that
of `"12:00:00"`. -/
theorem claim_c1_witness :
    parse_user_datetime ("2025-10-02") ("12:00")
      = parse_user_datetime ("2025-10-02") ("12:00" ++ (":00")) :=
  (claim_c1 ("2025-10-02") ("12:00")).1 (by rfl)

/-- C3: every strictly formatted, calendar-valid `YYYY-MM-DD` date string
and in-range `HH:MM:SS` time string parse to the UTC timestamp with the
literal field values, and formatting that timestamp back with the same
patterns reproduces both input strings. -/
theorem claim_c3 (ds ts : String) (hd : validDateStr ds) (ht : validTimeStr ts) :
    ∃ dt : DateTimeUtc, parse_user_datetime ds ts = .ok dt ∧
      formatDateOf dt = ds ∧ formatTimeOf dt = ts := by
  obtain ⟨y, m, d, hy, hm1, hm2, hd1, hd2, rfl⟩ := hd
  obtain ⟨h, mi, se, hh, hmi, hse, rfl⟩ := ht
  refine ⟨⟨(y : Int), m, d, h, mi, se, 0⟩, ?_, ?_, ?_⟩
  · unfold parse_user_datetime
    rw [if_neg (by rw [colonCount_fmtTime h mi se (by omega) (by omega) (by omega)]; omega),
      parse_date_fmt y m d hy hm1 hm2 hd1 hd2, exceptBind_ok,
      parseTimeHMS_fmt h mi se hh hmi hse, exceptBind_ok]
  · have h1 : ¬ ((y : Int) < 0) := by omega
    have h2 : ¬ ((10000 : Int) ≤ (y : Int)) := by omega
    simp [formatDateOf, fmtDate, yearChars, h1, h2]
  · unfold formatTimeOf
    norm_num

/-- Witness for C3 at `2025-10-02 12:00:30`. -/
theorem claim_c3_witness :
    ∃ dt : DateTimeUtc, parse_user_datetime ("2025-10-02") ("12:00:30") = .ok dt ∧
      formatDateOf dt = "2025-10-02" ∧ formatTimeOf dt = "12:00:30" :=
  claim_c3 ("2025-10-02") ("12:00:30")
    ⟨2025, 10, 2, by omega, by omega, by omega, by omega, by decide, by rfl⟩
    ⟨12, 0, 30, by omega, by omega, by omega, by rfl⟩

/-- C2 fails as stated: chrono's lenient numeric scanning accepts
`"2025-1-2"`, a date string that does not match the `YYYY-MM-DD` pattern;
and a malformed date and a malformed time produce the very same
`ParseError` value (OUT_OF_RANGE), so the error cannot identify which
field failed. -/
theorem claim_c2_counterexample :
    (¬ validDateStr ("2025-1-2")) ∧
    parse_user_datetime ("2025-1-2") ("12:00") = .ok ⟨2025, 1, 2, 12, 0, 0, 0⟩ ∧
    parse_user_datetime ("2025-13-40") ("12:00") = .error .outOfRange ∧
    parse_user_datetime ("2025-10-02") ("25:00") = .error .outOfRange := by
  refine ⟨?_, by rfl, by rfl, by rfl⟩
  rintro ⟨y, m, d, hy, hm1, hm2, hd1, hd2, heq⟩
  have hdm := daysInMonth_le_31 (y : Int) m
  have hlen : ((fmtDate y m d).data).length = 10 := by
    rw [fmtDate_data y m d (by omega) (by omega) (by omega)]
    simp [padDigits_length]
  rw [← heq] at hlen
  simp at hlen

/-- C2 as amended: pattern-shaped inputs with out-of-range components
(e.g. month 13, hour 25) always fail with a ParseError and never yield a
default value; but the parser also accepts some strings outside the
strict pattern (see the counterexample), and the error value is the same
for a bad date as for a bad time, so it does not identify the failing
field. -/
theorem claim_c2_amended :
    (∀ y m d : Nat, y ≤ 9999 → 13 ≤ m → m ≤ 99 → d ≤ 99 →
      parse_date (fmtDate y m d) = .error .outOfRange)
    ∧ (∀ h mi se : Nat, 24 ≤ h → h ≤ 99 →
      parseTimeHMS (fmtTime h mi se) = .error .outOfRange)
    ∧ parse_user_datetime ("2025-13-40") ("12:00")
        = parse_user_datetime ("2025-10-02") ("25:00") := by
  refine ⟨?_, ?_, by rfl⟩
  · intro y m d hy hm13 hm hd
    unfold parse_date
    rw [fmtDate_data y m d (by omega) (by omega) (by omega),
      parseNumericYear_pad y _ (by omega), exceptBind_ok, parseLiteral_cons, exceptBind_ok,
      parseNumeric2_pad m _ (by omega), exceptBind_ok, parseLiteral_cons, exceptBind_ok,
      parseNumeric2_pad_nil d (by omega), exceptBind_ok]
    simp only [if_pos rfl]
    unfold fromYmdOpt
    rw [if_neg (show ¬(-262144 ≤ (y : Int) ∧ (y : Int) ≤ 262143 ∧ 1 ≤ m ∧ m ≤ 12 ∧
      1 ≤ d ∧ d ≤ daysInMonth (y : Int) m) from by rintro ⟨-, -, -, hc, -⟩ ; omega)]
    simp
  · intro h mi se hge hle
    unfold parseTimeHMS
    have hdata : (fmtTime h mi se).data
        = padDigits 2 h ++ ':' :: (zeroPad 2 mi ++ ':' :: zeroPad 2 se) := by
      unfold fmtTime
      rw [zeroPad_eq_padDigits 2 h (by omega) (by norm_num; omega)]
    rw [hdata, parseNumeric2_pad h _ (by omega), exceptBind_ok, if_pos hge]

/-- Witness for the amended C2 at month 13 (`2025-13-40`). -/
theorem claim_c2_amended_witness :
    parse_date (fmtDate 2025 13 40) = .error .outOfRange :=
  claim_c2_amended.1 2025 13 40 (by omega) (by omega) (by omega) (by omega)

/-! Trimming facts. -/

lemma dropWhile_head_false {p : Char → Bool} :
    ∀ (l : List Char) (c : Char) (r : List Char), l.dropWhile p = c :: r → p c = false := by
  intro l
  induction l with
  | nil => intro c r h; simp [List.dropWhile] at h
  | cons x xs ih =>
    intro c r h
    rw [List.dropWhile_cons] at h
    by_cases hx : p x = true
    · rw [if_pos hx] at h
      exact ih c r h
    · rw [if_neg hx] at h
      cases h
      simpa using hx

lemma rustTrim_head (s : String) (ch : Char) (r : List Char)
    (h : (rustTrim s).data = ch :: r) : ch.isWhitespace = false := by
  unfold rustTrim at h
  set l1 := s.data.dropWhile Char.isWhitespace with hl1
  set l2 := l1.reverse.dropWhile Char.isWhitespace with hl2
  have hdata : l2.reverse = ch :: r := h
  have hsplit : l1.reverse = l1.reverse.takeWhile Char.isWhitespace ++ l2 :=
    (List.takeWhile_append_dropWhile _ _).symm
  have hl1eq : l1 = l2.reverse ++ (l1.reverse.takeWhile Char.isWhitespace).reverse := by
    have hrev := congrArg List.reverse hsplit
    simpa using hrev
  rw [hdata] at hl1eq
  exact dropWhile_head_false s.data ch _ (by rw [← hl1, hl1eq, List.cons_append])

lemma rustTrim_last (s : String) (ini : List Char) (ch : Char)
    (h : (rustTrim s).data = ini ++ [ch]) : ch.isWhitespace = false := by
  unfold rustTrim at h
  have h2 : (s.data.dropWhile Char.isWhitespace).reverse.dropWhile Char.isWhitespace
      = ch :: ini.reverse := by
    have hrev := congrArg List.reverse h
    simpa using hrev
  exact dropWhile_head_false _ ch _ h2

/-- C4 fails as stated: field collection does not enforce the non-empty
invariant — a whitespace-only satellite-name answer yields a `TleData`
whose first field is empty (after trimming, which has already been
applied). -/
theorem claim_c4_counterexample :
    get_tle_input tleOracleBlank 0 = (.ok ⟨"", "x", "x"⟩, 3) ∧
    ("" : String).data = [] := ⟨rfl, rfl⟩

/-- C4 as amended: each produced field is exactly the prompted text with
leading and trailing whitespace trimmed (so a produced field never starts
or ends with whitespace), and no other validation is applied — in
particular empty fields are accepted, so the non-emptiness invariant does
not hold. -/
theorem claim_c4_amended (a b c : String) :
    get_tle_pure a b c = ⟨rustTrim a, rustTrim b, rustTrim c⟩
    ∧ (∀ ch r, (rustTrim a).data = ch :: r → ch.isWhitespace = false)
    ∧ (∀ ini ch, (rustTrim a).data = ini ++ [ch] → ch.isWhitespace = false)
    ∧ (∀ o i, get_tle_input o i = stepBind stepPrompt (fun n =>
        stepBind stepPrompt (fun l1 => stepBind stepPrompt (fun l2 =>
        stepPure (get_tle_pure n l1 l2)))) o i) :=
  ⟨rfl, fun ch r h => rustTrim_head a ch r h,
   fun ini ch h => rustTrim_last a ini ch h, fun _ _ => rfl⟩

/-- Witness for the amended C4 at `"  ISS (ZARYA)  "`: the field is the
trimmed text and its first character is not whitespace. -/
theorem claim_c4_amended_witness :
    get_tle_pure ("  ISS (ZARYA)  ") ("x") ("y")
      = ⟨rustTrim ("  ISS (ZARYA)  "), rustTrim ("x"), rustTrim ("y")⟩ ∧
    Char.isWhitespace 'I' = false :=
  ⟨(claim_c4_amended ("  ISS (ZARYA)  ") ("x") ("y")).1,
   (claim_c4_amended ("  ISS (ZARYA)  ") ("x") ("y")).2.1 'I'
     (['S', 'S', ' ', '(', 'Z', 'A', 'R', 'Y', 'A', ')']) (by rfl)⟩

/-- C5: request assembly is a pure passthrough — the DTO carries exactly
the collected fields; it serializes to a JSON object with field names
`start`, `end`, `tle` (containing `tle0`, `tle1`, `tle2`),
`rx_frequency`, `tx_frequency`; and submission issues exactly one POST to
`{base_url}/jobs` with content type `application/json`, for every input
(no ordering or other validation). -/
theorem claim_c5 (base_url : String) (input : UserInput) (transport : Transport) :
    jobRequestOfInput input = ⟨input.start_datetime, input.end_datetime, input.tle_data,
      input.rx_frequency, input.tx_frequency⟩
    ∧ JobRequestDTO.toJson (jobRequestOfInput input) = Json.obj
        [("start", Json.str (rfc3339 input.start_datetime)),
         ("end", Json.str (rfc3339 input.end_datetime)),
         ("tle", Json.obj [("tle0", Json.str input.tle_data.tle0),
                           ("tle1", Json.str input.tle_data.tle1),
                           ("tle2", Json.str input.tle_data.tle2)]),
         ("rx_frequency", jsonOfF64 input.rx_frequency),
         ("tx_frequency", jsonOfF64 input.tx_frequency)]
    ∧ (submit_job base_url input transport).1
        = [jobsRequest base_url (jobRequestOfInput input)]
    ∧ (jobsRequest base_url (jobRequestOfInput input)).url = base_url ++ ("/jobs")
    ∧ (jobsRequest base_url (jobRequestOfInput input)).contentType = "application/json" :=
  ⟨rfl, rfl, rfl, rfl, rfl⟩

/-- C9: `add_job` issues exactly one POST; a non-success status yields an
`HttpError` carrying that status; a success status with an undecodable
body yields an `HttpError`; a success status with a decodable body yields
the decoded response.  No second request exists in any case. -/
theorem claim_c9 (base_url : String) (job : JobRequestDTO) (transport : Transport) :
    (add_job base_url job transport).1 = [jobsRequest base_url job]
    ∧ (∀ st body, transport (jobsRequest base_url job) = .response st body →
        ¬ (200 ≤ st ∧ st ≤ 299) →
        (add_job base_url job transport).2 = .error (.HttpError (.status st)))
    ∧ (∀ st, transport (jobsRequest base_url job) = .response st none →
        (200 ≤ st ∧ st ≤ 299) →
        (add_job base_url job transport).2 = .error (.HttpError .decode))
    ∧ (∀ st j e, transport (jobsRequest base_url job) = .response st (some j) →
        (200 ≤ st ∧ st ≤ 299) → decodeApiResponse j = .error e →
        (add_job base_url job transport).2 = .error (.HttpError .decode))
    ∧ (∀ st j r, transport (jobsRequest base_url job) = .response st (some j) →
        (200 ≤ st ∧ st ≤ 299) → decodeApiResponse j = .ok r →
        (add_job base_url job transport).2 = .ok r)
    ∧ (transport (jobsRequest base_url job) = .netFailure →
        (add_job base_url job transport).2 = .error (.HttpError .network)) := by
  refine ⟨rfl, ?_, ?_, ?_, ?_, ?_⟩
  · intro st body ht hst
    simp only [add_job, ht, if_neg hst]
  · intro st ht hst
    simp only [add_job, ht, if_pos hst]
  · intro st j e ht hst hdec
    simp only [add_job, ht, if_pos hst, hdec]
  · intro st j r ht hst hdec
    simp only [add_job, ht, if_pos hst, hdec]
  · intro ht
    simp only [add_job, ht]

/-- Witness for C9: an HTTP 500 answer produces a status-carrying
`HttpError` and no second request. -/
theorem claim_c9_witness :
    (add_job ("http://localhost:3000") witJob witTransport).2
      = .error (.HttpError (.status 500)) :=
  (claim_c9 ("http://localhost:3000") witJob witTransport).2.1 500 none rfl (by omega)

/-! Monotonicity and locality of the interactive steps. -/

lemma stepMono_pure {α : Type} (a : α) : StepMono (stepPure a) := fun _ i => le_refl i

lemma stepMono_lift {α : Type} (r : Except CollectError α) : StepMono (stepLift r) :=
  fun _ i => le_refl i

lemma stepMono_prompt : StepMono stepPrompt := fun _ i => Nat.le_succ i

lemma stepMono_bind {α β : Type} (m : Step α) (f : α → Step β) (hm : StepMono m)
    (hf : ∀ a, StepMono (f a)) : StepMono (stepBind m f) := by
  intro o i
  rcases hmo : m o i with ⟨r, j⟩
  have hij : i ≤ j := by
    have := hm o i
    rw [hmo] at this
    exact this
  cases r with
  | error e =>
    have : stepBind m f o i = (.error e, j) := by unfold stepBind; rw [hmo]
    rw [this]
    exact hij
  | ok a =>
    have : stepBind m f o i = f a o j := by unfold stepBind; rw [hmo]
    rw [this]
    exact le_trans hij (hf a o j)

lemma stepLocal_pure {α : Type} (a : α) : StepLocal (stepPure a) := fun _ _ _ _ => rfl

lemma stepLocal_lift {α : Type} (r : Except CollectError α) : StepLocal (stepLift r) :=
  fun _ _ _ _ => rfl

lemma stepLocal_prompt : StepLocal stepPrompt := by
  intro o o' i h
  have hoi : o i = o' i := h i (le_refl i) (by unfold stepPrompt; omega)
  unfold stepPrompt
  rw [hoi]

lemma stepLocal_bind {α β : Type} (m : Step α) (f : α → Step β)
    (hmL : StepLocal m) (hmM : StepMono m) (hfL : ∀ a, StepLocal (f a))
    (hfM : ∀ a, StepMono (f a)) : StepLocal (stepBind m f) := by
  intro o o' i hagree
  rcases hmo : m o i with ⟨r, j⟩
  have hij : i ≤ j := by
    have := hmM o i
    rw [hmo] at this
    exact this
  cases r with
  | error e =>
    have htot : stepBind m f o i = (.error e, j) := by unfold stepBind; rw [hmo]
    have hm' : m o' i = (Except.error e, j) := by
      rw [← hmo]
      refine (hmL o o' i ?_).symm
      intro k hk1 hk2
      rw [hmo] at hk2
      exact hagree k hk1 (by rw [htot]; exact hk2)
    have htot' : stepBind m f o' i = (.error e, j) := by unfold stepBind; rw [hm']
    rw [htot, htot']
  | ok a =>
    have htot : stepBind m f o i = f a o j := by unfold stepBind; rw [hmo]
    have hjt : j ≤ (f a o j).2 := hfM a o j
    have hm' : m o' i = (Except.ok a, j) := by
      rw [← hmo]
      refine (hmL o o' i ?_).symm
      intro k hk1 hk2
      rw [hmo] at hk2
      refine hagree k hk1 ?_
      rw [htot]
      omega
    have hf' : f a o j = f a o' j := by
      refine hfL a o o' j ?_
      intro k hk1 hk2
      refine hagree k (by omega) ?_
      rw [htot]
      omega
    have htot' : stepBind m f o' i = f a o' j := by unfold stepBind; rw [hm']
    rw [htot, htot', hf']

lemma get_datetime_input_mono : StepMono get_datetime_input :=
  stepMono_bind _ _ stepMono_prompt (fun _ =>
    stepMono_bind _ _ stepMono_prompt (fun _ => stepMono_lift _))

lemma get_datetime_input_local : StepLocal get_datetime_input :=
  stepLocal_bind _ _ stepLocal_prompt stepMono_prompt
    (fun _ => stepLocal_bind _ _ stepLocal_prompt stepMono_prompt
      (fun _ => stepLocal_lift _) (fun _ => stepMono_lift _))
    (fun _ => stepMono_bind _ _ stepMono_prompt (fun _ => stepMono_lift _))

lemma get_tle_input_mono : StepMono get_tle_input :=
  stepMono_bind _ _ stepMono_prompt (fun _ =>
    stepMono_bind _ _ stepMono_prompt (fun _ =>
      stepMono_bind _ _ stepMono_prompt (fun _ => stepMono_pure _)))

lemma get_tle_input_local : StepLocal get_tle_input :=
  stepLocal_bind _ _ stepLocal_prompt stepMono_prompt
    (fun _ => stepLocal_bind _ _ stepLocal_prompt stepMono_prompt
      (fun _ => stepLocal_bind _ _ stepLocal_prompt stepMono_prompt
        (fun _ => stepLocal_pure _) (fun _ => stepMono_pure _))
      (fun _ => stepMono_bind _ _ stepMono_prompt (fun _ => stepMono_pure _)))
    (fun _ => stepMono_bind _ _ stepMono_prompt (fun _ =>
      stepMono_bind _ _ stepMono_prompt (fun _ => stepMono_pure _)))

lemma get_frequency_input_step_mono : StepMono get_frequency_input_step :=
  stepMono_bind _ _ stepMono_prompt (fun _ => stepMono_lift _)

lemma get_frequency_input_step_local : StepLocal get_frequency_input_step :=
  stepLocal_bind _ _ stepLocal_prompt stepMono_prompt
    (fun _ => stepLocal_lift _) (fun _ => stepMono_lift _)

lemma collect_job_info_mono : StepMono collect_job_info :=
  stepMono_bind _ _ get_datetime_input_mono (fun _ =>
    stepMono_bind _ _ get_datetime_input_mono (fun _ =>
      stepMono_bind _ _ get_tle_input_mono (fun _ =>
        stepMono_bind _ _ get_frequency_input_step_mono (fun _ =>
          stepMono_bind _ _ get_frequency_input_step_mono (fun _ => stepMono_pure _)))))

lemma collect_job_info_local : StepLocal collect_job_info :=
  stepLocal_bind _ _ get_datetime_input_local get_datetime_input_mono
    (fun _ => stepLocal_bind _ _ get_datetime_input_local get_datetime_input_mono
      (fun _ => stepLocal_bind _ _ get_tle_input_local get_tle_input_mono
        (fun _ => stepLocal_bind _ _ get_frequency_input_step_local get_frequency_input_step_mono
          (fun _ => stepLocal_bind _ _ get_frequency_input_step_local get_frequency_input_step_mono
            (fun _ => stepLocal_pure _) (fun _ => stepMono_pure _))
          (fun _ => stepMono_bind _ _ get_frequency_input_step_mono (fun _ => stepMono_pure _)))
        (fun _ => stepMono_bind _ _ get_frequency_input_step_mono (fun _ =>
          stepMono_bind _ _ get_frequency_input_step_mono (fun _ => stepMono_pure _))))
      (fun _ => stepMono_bind _ _ get_tle_input_mono (fun _ =>
        stepMono_bind _ _ get_frequency_input_step_mono (fun _ =>
          stepMono_bind _ _ get_frequency_input_step_mono (fun _ => stepMono_pure _)))))
    (fun _ => stepMono_bind _ _ get_datetime_input_mono (fun _ =>
      stepMono_bind _ _ get_tle_input_mono (fun _ =>
        stepMono_bind _ _ get_frequency_input_step_mono (fun _ =>
          stepMono_bind _ _ get_frequency_input_step_mono (fun _ => stepMono_pure _)))))

/-- C6: collection halts at the first failure — the outcome of
`collect_job_info` depends only on the prompts it consumed (so nothing
after a failure is ever prompted), and whichever of the five steps (start
date/time, end date/time, element set, RX frequency, TX frequency) fails
first, its error is returned unchanged, with the prompt position frozen
at that step and no `UserInput` produced. -/
theorem claim_c6 (o o' : Oracle) :
    ((∀ j, j < (collect_job_info o 0).2 → o j = o' j) →
      collect_job_info o 0 = collect_job_info o' 0)
    ∧ (∀ e c, get_datetime_input o 0 = (.error e, c) →
        collect_job_info o 0 = (.error e, c))
    ∧ (∀ v1 c1 e c, get_datetime_input o 0 = (.ok v1, c1) →
        get_datetime_input o c1 = (.error e, c) →
        collect_job_info o 0 = (.error e, c))
    ∧ (∀ v1 c1 v2 c2 e c, get_datetime_input o 0 = (.ok v1, c1) →
        get_datetime_input o c1 = (.ok v2, c2) →
        get_tle_input o c2 = (.error e, c) →
        collect_job_info o 0 = (.error e, c))
    ∧ (∀ v1 c1 v2 c2 v3 c3 e c, get_datetime_input o 0 = (.ok v1, c1) →
        get_datetime_input o c1 = (.ok v2, c2) →
        get_tle_input o c2 = (.ok v3, c3) →
        get_frequency_input_step o c3 = (.error e, c) →
        collect_job_info o 0 = (.error e, c))
    ∧ (∀ v1 c1 v2 c2 v3 c3 v4 c4 e c, get_datetime_input o 0 = (.ok v1, c1) →
        get_datetime_input o c1 = (.ok v2, c2) →
        get_tle_input o c2 = (.ok v3, c3) →
        get_frequency_input_step o c3 = (.ok v4, c4) →
        get_frequency_input_step o c4 = (.error e, c) →
        collect_job_info o 0 = (.error e, c)) := by
  refine ⟨?_, ?_, ?_, ?_, ?_, ?_⟩
  · intro h
    exact collect_job_info_local o o' 0 (fun j _ hj2 => h j hj2)
  · intro e c h1
    simp only [collect_job_info, stepBind, h1]
  · intro v1 c1 e c h1 h2
    simp only [collect_job_info, stepBind, h1, h2]
  · intro v1 c1 v2 c2 e c h1 h2 h3
    simp only [collect_job_info, stepBind, h1, h2, h3]
  · intro v1 c1 v2 c2 v3 c3 e c h1 h2 h3 h4
    simp only [collect_job_info, stepBind, h1, h2, h3, h4]
  · intro v1 c1 v2 c2 v3 c3 v4 c4 e c h1 h2 h3 h4 h5
    simp only [collect_job_info, stepBind, h1, h2, h3, h4, h5]

/-- Witness for C6: when the very first prompt is interrupted, collection
returns that prompt error after exactly one prompt. -/
theorem claim_c6_witness :
    collect_job_info failOracle 0 = (.error (.prompt .interrupted), 1) :=
  (claim_c6 failOracle failOracle).2.1 (.prompt .interrupted) 1 rfl

/-! Environment configuration claims. -/

lemma rustParseU64_neg_head (s : String) (r : List Char) (h : s.data = '-' :: r) :
    rustParseU64 s = .error .invalidDigit := by
  simp [rustParseU64, h]

lemma rustParseU64_digits (s : String) (hne : s.data ≠ [])
    (hdig : ∀ c ∈ s.data, c.isDigit = true) :
    rustParseU64 s = (if digitsToNat s.data < 18446744073709551616
      then .ok (digitsToNat s.data) else .error .posOverflow) := by
  rcases hs : s.data with _ | ⟨c, rest⟩
  · exact absurd hs hne
  · have hcd : c.isDigit = true := hdig c (hs ▸ List.mem_cons_self c rest)
    have hcm : ¬ c = '-' := by intro hc; rw [hc] at hcd; exact absurd hcd (by decide)
    have hcp : ¬ c = '+' := by intro hc; rw [hc] at hcd; exact absurd hcd (by decide)
    have hall : (c :: rest).all Char.isDigit = true :=
      List.all_eq_true.mpr (fun ch hch => hdig ch (hs ▸ hch))
    simp only [rustParseU64, hs, if_neg hcm, if_neg hcp,
      if_neg (show ¬ (c :: rest = []) by simp), if_pos hall]

lemma rustParseU64_plus_digits (s : String) (r : List Char) (h : s.data = '+' :: r)
    (hne : r ≠ []) (hdig : ∀ c ∈ r, c.isDigit = true) :
    rustParseU64 s = (if digitsToNat r < 18446744073709551616
      then .ok (digitsToNat r) else .error .posOverflow) := by
  have hall : r.all Char.isDigit = true := List.all_eq_true.mpr hdig
  simp only [rustParseU64, h, if_neg (show ¬ ('+' : Char) = '-' by decide),
    if_pos (rfl : ('+' : Char) = '+'), if_true, if_neg hne, if_pos hall]

lemma rustParseU64_ok_isInt (s : String) (v : Nat) (h : rustParseU64 s = .ok v) :
    isIntLiteralStr s := by
  unfold rustParseU64 at h
  rcases hs : s.data with _ | ⟨c, rest⟩ <;> rw [hs] at h
  · simp at h
  · by_cases hcm : c = '-'
    · simp [hcm] at h
    · simp only [if_neg hcm] at h
      by_cases hcp : c = '+'
      · simp only [hcp, if_pos rfl, if_true] at h
        by_cases h0 : rest = []
        · simp [h0] at h
        · simp only [if_neg h0] at h
          by_cases hall : rest.all Char.isDigit
          · exact ⟨['+'], rest, by rw [hs, hcp, List.singleton_append], by simp, h0,
              fun ch hch => List.all_eq_true.mp hall ch hch⟩
          · simp [hall] at h
      · simp only [if_neg hcp] at h
        rw [if_neg (by simp : ¬ (c :: rest = []))] at h
        by_cases hall : (c :: rest).all Char.isDigit
        · exact ⟨[], c :: rest, by rw [hs]; rfl, by simp, by simp,
            fun ch hch => List.all_eq_true.mp hall ch hch⟩
        · simp [hall] at h

/-- C8: client construction always succeeds; with `API_BASE_URL` unset the
base URL is `http://localhost:3000`; with `API_TIMEOUT_SECONDS` unset the
timeout is 30 seconds; and any non-integer `API_TIMEOUT_SECONDS` value
silently falls back to 30. -/
theorem claim_c8 (env : EnvMap) :
    (∃ cfg, ApiClient.new env = .ok cfg)
    ∧ (env ("API_BASE_URL") = none → ∀ cfg, ApiClient.new env = .ok cfg →
        cfg.base_url = "http://localhost:3000")
    ∧ (env ("API_TIMEOUT_SECONDS") = none → ∀ cfg, ApiClient.new env = .ok cfg →
        cfg.timeout_seconds = 30)
    ∧ (∀ s, env ("API_TIMEOUT_SECONDS") = some s → ¬ isIntLiteralStr s →
        ∀ cfg, ApiClient.new env = .ok cfg → cfg.timeout_seconds = 30) := by
  refine ⟨⟨_, rfl⟩, ?_, ?_, ?_⟩
  · intro h cfg hcfg
    simp only [ApiClient.new, h, Option.getD_none, Except.ok.injEq] at hcfg
    rw [← hcfg]
  · intro h cfg hcfg
    simp only [ApiClient.new, h, Option.getD_none,
      show rustParseU64 ("30") = .ok 30 from rfl, Except.ok.injEq] at hcfg
    rw [← hcfg]
  · intro s hsome hnot cfg hcfg
    cases hval : rustParseU64 s with
    | ok v => exact absurd (rustParseU64_ok_isInt s v hval) hnot
    | error e =>
      simp only [ApiClient.new, hsome, Option.getD_some, hval, Except.ok.injEq] at hcfg
      rw [← hcfg]

lemma notIntLit_abc : ¬ isIntLiteralStr ("abc") := by
  rintro ⟨sg, ds, hdata, hsg, hne, hdig⟩
  have habc : ("abc").data = ['a', 'b', 'c'] := rfl
  rw [habc] at hdata
  rcases hsg with h | h | h <;> subst h
  · simp only [List.nil_append] at hdata
    subst hdata
    have := hdig 'a' (by simp)
    exact absurd this (by decide)
  · rw [List.singleton_append] at hdata
    have := List.head_eq_of_cons_eq hdata
    exact absurd this (by decide)
  · rw [List.singleton_append] at hdata
    have := List.head_eq_of_cons_eq hdata
    exact absurd this (by decide)

/-- Witness for C8: `API_TIMEOUT_SECONDS=abc` builds the client with the
default 30-second timeout. -/
theorem claim_c8_witness :
    ApiClient.new envTimeoutAbc = .ok ⟨"http://localhost:3000", 30⟩ ∧
    (⟨"http://localhost:3000", 30⟩ : ApiClientCfg).timeout_seconds = 30 :=
  ⟨rfl, (claim_c8 envTimeoutAbc).2.2.2 ("abc") rfl notIntLit_abc
    ⟨"http://localhost:3000", 30⟩ rfl⟩

/-- C10: an integer-shaped `API_TIMEOUT_SECONDS` value that does not fit
an unsigned 64-bit integer — any negative integer such as `"-5"`, or any
magnitude ≥ 2⁶⁴ — silently falls back to the 30-second default, because
the value is parsed as `u64`. -/
theorem claim_c10 (env : EnvMap) (s : String) (sg ds : List Char)
    (hsome : env ("API_TIMEOUT_SECONDS") = some s)
    (hdecomp : s.data = sg ++ ds) (hsg : sg = [] ∨ sg = ['+'] ∨ sg = ['-'])
    (hne : ds ≠ []) (hdig : ∀ c ∈ ds, c.isDigit = true)
    (hnofit : (sg = ['-'] ∧ digitsToNat ds ≠ 0) ∨ 18446744073709551616 ≤ digitsToNat ds) :
    ∀ cfg, ApiClient.new env = .ok cfg → cfg.timeout_seconds = 30 := by
  intro cfg hcfg
  have herr : ∃ e, rustParseU64 s = .error e := by
    rcases hsg with h | h | h
    · subst h
      rw [List.nil_append] at hdecomp
      have hval : 18446744073709551616 ≤ digitsToNat ds := by
        rcases hnofit with ⟨hcontra, -⟩ | h2
        · simp at hcontra
        · exact h2
      refine ⟨.posOverflow, ?_⟩
      rw [rustParseU64_digits s (by rw [hdecomp]; exact hne)
        (fun ch hch => hdig ch (by rw [hdecomp] at hch; exact hch)), hdecomp,
        if_neg (by omega)]
    · subst h
      rw [List.singleton_append] at hdecomp
      have hval : 18446744073709551616 ≤ digitsToNat ds := by
        rcases hnofit with ⟨hcontra, -⟩ | h2
        · simp at hcontra
        · exact h2
      refine ⟨.posOverflow, ?_⟩
      rw [rustParseU64_plus_digits s ds hdecomp hne hdig, if_neg (by omega)]
    · subst h
      rw [List.singleton_append] at hdecomp
      exact ⟨.invalidDigit, rustParseU64_neg_head s ds hdecomp⟩
  obtain ⟨e, he⟩ := herr
  simp only [ApiClient.new, hsome, Option.getD_some, he, Except.ok.injEq] at hcfg
  rw [← hcfg]

/-- Witness for C10: `API_TIMEOUT_SECONDS=-5` builds the client with the
default 30-second timeout. -/
theorem claim_c10_witness :
    ApiClient.new envTimeoutNeg = .ok ⟨"http://localhost:3000", 30⟩ ∧
    (⟨"http://localhost:3000", 30⟩ : ApiClientCfg).timeout_seconds = 30 :=
  ⟨rfl, claim_c10 envTimeoutNeg ("-5") (['-']) (['5']) rfl rfl (Or.inr (Or.inr rfl))
    (by simp) (by decide) (Or.inl ⟨rfl, by decide⟩)
    ⟨"http://localhost:3000", 30⟩ rfl⟩

/-! Float-literal grammar facts. -/

lemma takeWhile_app {p : Char → Bool} (xs : List Char) (y : Char) (r : List Char)
    (hxs : ∀ c ∈ xs, p c = true) (hy : p y = false) :
    (xs ++ y :: r).takeWhile p = xs ∧ (xs ++ y :: r).dropWhile p = y :: r := by
  induction xs with
  | nil => simp [List.takeWhile_cons, List.dropWhile_cons, hy]
  | cons x xs ih =>
    have hx : p x = true := hxs x (List.mem_cons_self x xs)
    have hih := ih (fun c hc => hxs c (List.mem_cons_of_mem x hc))
    constructor
    · simp only [List.cons_append, List.takeWhile_cons, hx, if_true, hih.1]
    · simp only [List.cons_append, List.dropWhile_cons, hx, if_true, hih.2]

lemma takeWhile_digits_split (F rest : List Char) (hF : ∀ c ∈ F, c.isDigit = true)
    (hrest : rest = [] ∨ ∃ e t, rest = e :: t ∧ e.isDigit = false) :
    (F ++ rest).takeWhile Char.isDigit = F ∧ (F ++ rest).dropWhile Char.isDigit = rest := by
  rcases hrest with h | ⟨e, t, hrt, he⟩
  · subst h
    rw [List.append_nil]
    exact ⟨List.takeWhile_eq_self_iff.mpr hF, List.dropWhile_eq_nil_iff.mpr hF⟩
  · subst hrt
    exact takeWhile_app F e t hF he

lemma head?_cons_of_eq {l : List Char} {c : Char} (h : l.head? = some c) : l = c :: l.tail := by
  cases l <;> simp_all

lemma splitSign_cases (l : List Char) :
    (∃ r, l = '+' :: r ∧ splitSign l = (false, r)) ∨
    (∃ r, l = '-' :: r ∧ splitSign l = (true, r)) ∨
    (l.head? ≠ some ('+') ∧ l.head? ≠ some ('-') ∧ splitSign l = (false, l)) := by
  by_cases h1 : l.head? = some ('+')
  · left
    refine ⟨l.tail, head?_cons_of_eq h1, ?_⟩
    unfold splitSign
    rw [if_pos h1]
  · by_cases h2 : l.head? = some ('-')
    · right; left
      refine ⟨l.tail, head?_cons_of_eq h2, ?_⟩
      unfold splitSign
      rw [if_neg h1, if_pos h2]
    · right; right
      refine ⟨h1, h2, ?_⟩
      unfold splitSign
      rw [if_neg h1, if_neg h2]

lemma lowerEq_head (body : List Char) (c : Char) (ts : List Char)
    (hb : lowerEq body (c :: ts) = true) :
    ∃ x xs, body = x :: xs ∧ x.toLower = c := by
  unfold lowerEq at hb
  rcases body with _ | ⟨x, xs⟩
  · simp at hb
  · refine ⟨x, xs, rfl, ?_⟩
    simp only [List.map_cons, beq_iff_eq] at hb
    exact List.head_eq_of_cons_eq hb

lemma parseExpPart_eval (sg ds : List Char) (hsg : sg = [] ∨ sg = ['+'] ∨ sg = ['-'])
    (hne : ds ≠ []) (hdig : ∀ c ∈ ds, c.isDigit = true) :
    parseExpPart (sg ++ ds) = some (if sg = ['-'] then -(digitsToNat ds : Int)
      else (digitsToNat ds : Int)) := by
  have hall : ds.all Char.isDigit = true := List.all_eq_true.mpr hdig
  have hdshead : ds.head? ≠ some ('+') ∧ ds.head? ≠ some ('-') := by
    rcases hds : ds with _ | ⟨c, t⟩
    · exact absurd hds hne
    · have hc : c.isDigit = true := hdig c (hds ▸ List.mem_cons_self c t)
      constructor
      · intro hx
        have hce : c = '+' := by simpa using hx
        rw [hce] at hc
        exact absurd hc (by decide)
      · intro hx
        have hce : c = '-' := by simpa using hx
        rw [hce] at hc
        exact absurd hc (by decide)
  rcases hsg with h | h | h <;> subst h
  · rw [List.nil_append]
    unfold parseExpPart
    have hsplit : splitSign ds = (false, ds) := by
      unfold splitSign
      rw [if_neg hdshead.1, if_neg hdshead.2]
    rw [hsplit]
    simp [hne, hall]
  · rw [List.singleton_append]
    unfold parseExpPart
    have hsplit : splitSign ('+' :: ds) = (false, ds) := rfl
    rw [hsplit]
    simp [hne, hall]
  · rw [List.singleton_append]
    unfold parseExpPart
    have hsplit : splitSign ('-' :: ds) = (true, ds) := rfl
    rw [hsplit]
    simp [hne, hall]

lemma parseExpPart_inv (l : List Char) (v : Int) (h : parseExpPart l = some v) :
    ∃ sg ds, l = sg ++ ds ∧ (sg = [] ∨ sg = ['+'] ∨ sg = ['-']) ∧ ds ≠ [] ∧
      (∀ c ∈ l.takeWhile Char.isDigit, c.isDigit = true) ∧ (∀ c ∈ ds, c.isDigit = true) := by
  unfold parseExpPart at h
  rcases splitSign_cases l with ⟨r, hl, hs⟩ | ⟨r, hl, hs⟩ | ⟨h1, h2, hs⟩ <;> rw [hs] at h
  · by_cases hc : r ≠ [] ∧ r.all Char.isDigit
    · exact ⟨['+'], r, by rw [hl, List.singleton_append], by simp, hc.1,
        fun c hcm => List.mem_takeWhile_imp hcm,
        fun c hcm => List.all_eq_true.mp hc.2 c hcm⟩
    · rw [if_neg hc] at h
      simp at h
  · by_cases hc : r ≠ [] ∧ r.all Char.isDigit
    · exact ⟨['-'], r, by rw [hl, List.singleton_append], by simp, hc.1,
        fun c hcm => List.mem_takeWhile_imp hcm,
        fun c hcm => List.all_eq_true.mp hc.2 c hcm⟩
    · rw [if_neg hc] at h
      simp at h
  · by_cases hc : l ≠ [] ∧ l.all Char.isDigit
    · exact ⟨[], l, by rw [List.nil_append], by simp, hc.1,
        fun c hcm => List.mem_takeWhile_imp hcm,
        fun c hcm => List.all_eq_true.mp hc.2 c hcm⟩
    · rw [if_neg hc] at h
      simp at h

lemma parseMantissa_dot (I F rest : List Char) (hI : ∀ c ∈ I, c.isDigit = true)
    (hF : ∀ c ∈ F, c.isDigit = true) (hne : ¬(I = [] ∧ F = []))
    (hrest : rest = [] ∨ ∃ e t, rest = e :: t ∧ e.isDigit = false) :
    parseMantissa (I ++ '.' :: (F ++ rest)) = some (mantVal I F, rest) := by
  have hsplit1 := takeWhile_app I '.' (F ++ rest) hI (by decide)
  have hsplit2 := takeWhile_digits_split F rest hF hrest
  simp only [parseMantissa, hsplit1.1, hsplit1.2, List.head?_cons, List.tail_cons,
    hsplit2.1, hsplit2.2, if_true]
  rw [if_neg hne]

lemma parseMantissa_nodot (I rest : List Char) (hI : ∀ c ∈ I, c.isDigit = true)
    (hne : I ≠ [])
    (hrest : rest = [] ∨ ∃ e t, rest = e :: t ∧ e.isDigit = false ∧ e ≠ '.') :
    parseMantissa (I ++ rest) = some ((digitsToNat I : ℚ), rest) := by
  have hsp : (I ++ rest).takeWhile Char.isDigit = I ∧
      (I ++ rest).dropWhile Char.isDigit = rest := by
    refine takeWhile_digits_split I rest hI ?_
    rcases hrest with h | ⟨e, t, h1, h2, h3⟩
    · exact Or.inl h
    · exact Or.inr ⟨e, t, h1, h2⟩
  have hhead : rest.head? ≠ some ('.') := by
    rcases hrest with h | ⟨e, t, h1, h2, h3⟩
    · subst h; simp
    · subst h1; simpa using h3
  simp only [parseMantissa, hsp.1, hsp.2]
  rw [if_neg hhead, if_neg hne]

lemma parseMantissa_inv (l : List Char) (q : ℚ) (rest : List Char)
    (h : parseMantissa l = some (q, rest)) :
    (∃ I F, l = I ++ '.' :: (F ++ rest) ∧ (∀ c ∈ I, c.isDigit = true) ∧
      (∀ c ∈ F, c.isDigit = true) ∧ ¬(I = [] ∧ F = []))
    ∨ (∃ I, l = I ++ rest ∧ I ≠ [] ∧ (∀ c ∈ I, c.isDigit = true)) := by
  have hItake : ∀ c ∈ l.takeWhile Char.isDigit, c.isDigit = true :=
    fun c hc => List.mem_takeWhile_imp hc
  have hlsplit : l.takeWhile Char.isDigit ++ l.dropWhile Char.isDigit = l :=
    List.takeWhile_append_dropWhile _ _
  simp only [parseMantissa] at h
  by_cases hdot : (l.dropWhile Char.isDigit).head? = some ('.')
  · rw [if_pos hdot] at h
    by_cases hne : l.takeWhile Char.isDigit = [] ∧
        (l.dropWhile Char.isDigit).tail.takeWhile Char.isDigit = []
    · rw [if_pos hne] at h
      simp at h
    · rw [if_neg hne] at h
      simp only [Option.some.injEq, Prod.mk.injEq] at h
      left
      refine ⟨l.takeWhile Char.isDigit, (l.dropWhile Char.isDigit).tail.takeWhile Char.isDigit,
        ?_, hItake, fun c hc => List.mem_takeWhile_imp hc, hne⟩
      rw [← h.2]
      conv_lhs => rw [← hlsplit]
      congr 1
      rw [head?_cons_of_eq hdot]
      congr 1
      exact (List.takeWhile_append_dropWhile _ _).symm
  · rw [if_neg hdot] at h
    by_cases hne : l.takeWhile Char.isDigit = []
    · rw [if_pos hne] at h
      simp at h
    · rw [if_neg hne] at h
      simp only [Option.some.injEq, Prod.mk.injEq] at h
      right
      refine ⟨l.takeWhile Char.isDigit, ?_, hne, hItake⟩
      rw [← h.2]
      exact hlsplit.symm

lemma parseNumberF_noexp (l : List Char) (q : ℚ) (h : parseMantissa l = some (q, [])) :
    parseNumberF l = some q := by
  simp [parseNumberF, h]

lemma parseNumberF_exp (l : List Char) (q : ℚ) (e : Char) (tl : List Char) (v : Int)
    (h : parseMantissa l = some (q, e :: tl)) (he : e = 'e' ∨ e = 'E')
    (hexp : parseExpPart tl = some v) :
    parseNumberF l = some (q * qpow10 v) := by
  simp only [parseNumberF, h, List.head?_cons, List.tail_cons]
  rw [if_neg (by simp), if_pos (by rcases he with h' | h' <;> subst h' <;> simp), hexp]

lemma parseNumberF_isNumberPart (l : List Char) (q : ℚ) (h : parseNumberF l = some q) :
    isNumberPart l := by
  simp only [parseNumberF] at h
  cases hm : parseMantissa l with
  | none => rw [hm] at h; simp at h
  | some p =>
    rcases p with ⟨q0, rest⟩
    simp only [hm] at h
    have hmantCase : ∀ mant : List Char,
        ((∃ I F, mant = I ++ '.' :: F ∧ (∀ c ∈ I, c.isDigit = true) ∧
          (∀ c ∈ F, c.isDigit = true) ∧ ¬(I = [] ∧ F = []))
         ∨ (mant ≠ [] ∧ ∀ c ∈ mant, c.isDigit = true)) →
        ((∃ I F, mant = I ++ '.' :: F ∧ I ≠ [] ∧ (∀ c ∈ I, c.isDigit = true) ∧
            (∀ c ∈ F, c.isDigit = true))
         ∨ (∃ F, mant = '.' :: F ∧ F ≠ [] ∧ (∀ c ∈ F, c.isDigit = true))
         ∨ (mant ≠ [] ∧ ∀ c ∈ mant, c.isDigit = true)) := by
      intro mant hc
      rcases hc with ⟨I, F, hm', hI, hF, hne⟩ | hc
      · rcases hI0 : I with _ | ⟨c, I'⟩
        · subst hI0
          right; left
          refine ⟨F, by simpa using hm', ?_, hF⟩
          intro hF0
          exact hne ⟨rfl, hF0⟩
        · left
          exact ⟨I, F, hm', by rw [hI0]; simp, hI, hF⟩
      · exact Or.inr (Or.inr hc)
    have hdec := parseMantissa_inv l q0 rest hm
    by_cases hr : rest = []
    · subst hr
      rcases hdec with ⟨I, F, hl, hI, hF, hne⟩ | ⟨I, hl, hne, hI⟩
      · refine ⟨I ++ '.' :: F, [], by rw [hl]; simp, Or.inl rfl,
          hmantCase _ (Or.inl ⟨I, F, rfl, hI, hF, hne⟩)⟩
      · refine ⟨I, [], by rw [hl], Or.inl rfl, hmantCase _ (Or.inr ⟨hne, hI⟩)⟩
    · rw [if_neg hr] at h
      by_cases hhead : rest.head? = some ('e') ∨ rest.head? = some ('E')
      · rw [if_pos hhead] at h
        cases hexp : parseExpPart rest.tail with
        | none => rw [hexp] at h; simp at h
        | some v =>
          have hrc : rest = rest.head?.getD 'e' :: rest.tail := by
            rcases hhead with h' | h' <;> rw [head?_cons_of_eq h'] <;> simp [h']
          obtain ⟨sg, ds, hdecomp, hsg, hdsne, htw, hdig⟩ := parseExpPart_inv rest.tail v hexp
          have hexpPart : isExpPart rest := by
            refine ⟨rest.head?.getD 'e', sg, ds, by rw [← hdecomp]; exact hrc, ?_, hsg, hdsne, hdig⟩
            rcases hhead with h' | h' <;> rw [h'] <;> simp
          rcases hdec with ⟨I, F, hl, hI, hF, hne⟩ | ⟨I, hl, hne, hI⟩
          · exact ⟨I ++ '.' :: F, rest, by rw [hl]; simp, Or.inr hexpPart,
              hmantCase _ (Or.inl ⟨I, F, rfl, hI, hF, hne⟩)⟩
          · exact ⟨I, rest, hl, Or.inr hexpPart, hmantCase _ (Or.inr ⟨hne, hI⟩)⟩
      · rw [if_neg hhead] at h
        simp at h

lemma isNumberPart_parseNumberF (l : List Char) (h : isNumberPart l) :
    ∃ q, parseNumberF l = some q := by
  obtain ⟨mant, ex, rfl, hex, hcase⟩ := h
  have hrest : ex = [] ∨ ∃ e t, ex = e :: t ∧ e.isDigit = false ∧ e ≠ '.' := by
    rcases hex with h' | ⟨e, sg, ds, he1, he2, he3, he4, he5⟩
    · exact Or.inl h'
    · right
      refine ⟨e, sg ++ ds, he1, ?_, ?_⟩ <;> rcases he2 with h' | h' <;> subst h' <;> decide
  have hrestW : ex = [] ∨ ∃ e t, ex = e :: t ∧ e.isDigit = false := by
    rcases hrest with h' | ⟨e, t, h1, h2, h3⟩
    · exact Or.inl h'
    · exact Or.inr ⟨e, t, h1, h2⟩
  obtain ⟨q0, hq0⟩ : ∃ q0, parseMantissa (mant ++ ex) = some (q0, ex) := by
    rcases hcase with ⟨I, F, hm, hIne, hI, hF⟩ | ⟨F, hm, hFne, hF⟩ | ⟨hmne, hdig⟩
    · refine ⟨mantVal I F, ?_⟩
      have hassoc : (I ++ '.' :: F) ++ ex = I ++ '.' :: (F ++ ex) := by simp
      rw [hm, hassoc]
      exact parseMantissa_dot I F ex hI hF (fun hc => hIne hc.1) hrestW
    · refine ⟨mantVal [] F, ?_⟩
      have hassoc : ('.' :: F) ++ ex = [] ++ '.' :: (F ++ ex) := by simp
      rw [hm, hassoc]
      exact parseMantissa_dot [] F ex (by simp) hF (fun hc => hFne hc.2) hrestW
    · exact ⟨(digitsToNat mant : ℚ), parseMantissa_nodot mant ex hdig hmne hrest⟩
  rcases hex with hnil | ⟨e, sg, ds, he1, he2, he3, he4, he5⟩
  · subst hnil
    exact ⟨q0, parseNumberF_noexp _ q0 hq0⟩
  · subst he1
    exact ⟨q0 * qpow10 (if sg = ['-'] then -(digitsToNat ds : Int) else (digitsToNat ds : Int)),
      parseNumberF_exp _ q0 e (sg ++ ds) _ hq0 he2 (parseExpPart_eval sg ds he3 he4 he5)⟩

lemma floatBody_cases (r : List Char) (a b : F64) (fq : ℚ → F64) (w : F64)
    (h : (if lowerEq r (['i', 'n', 'f']) ∨ lowerEq r (['i', 'n', 'f', 'i', 'n', 'i', 't', 'y'])
          then Except.ok a
          else if lowerEq r (['n', 'a', 'n']) then Except.ok b
          else match parseNumberF r with
               | some q => Except.ok (fq q)
               | none => Except.error FloatParseError.invalidFloat) = Except.ok w) :
    lowerEq r (['i', 'n', 'f']) = true ∨
      lowerEq r (['i', 'n', 'f', 'i', 'n', 'i', 't', 'y']) = true ∨
      lowerEq r (['n', 'a', 'n']) = true ∨ isNumberPart r := by
  by_cases h1 : lowerEq r (['i', 'n', 'f']) = true ∨
      lowerEq r (['i', 'n', 'f', 'i', 'n', 'i', 't', 'y']) = true
  · rcases h1 with h1 | h1
    · exact Or.inl h1
    · exact Or.inr (Or.inl h1)
  · rw [if_neg h1] at h
    by_cases h2 : lowerEq r (['n', 'a', 'n']) = true
    · exact Or.inr (Or.inr (Or.inl h2))
    · rw [if_neg h2] at h
      cases hpn : parseNumberF r with
      | none => rw [hpn] at h; exact absurd h (by simp)
      | some q => exact Or.inr (Or.inr (Or.inr (parseNumberF_isNumberPart r q hpn)))

lemma validBody_head (body : List Char)
    (hbr : lowerEq body (['i', 'n', 'f']) = true ∨
           lowerEq body (['i', 'n', 'f', 'i', 'n', 'i', 't', 'y']) = true ∨
           lowerEq body (['n', 'a', 'n']) = true ∨ isNumberPart body) :
    body ≠ [] ∧ body.head? ≠ some ('+') ∧ body.head? ≠ some ('-') := by
  have hx : ∃ x xs, body = x :: xs ∧
      (x.toLower = 'i' ∨ x.toLower = 'n' ∨ x.isDigit = true ∨ x = '.') := by
    rcases hbr with h | h | h | h
    · obtain ⟨x, xs, hb, hl⟩ := lowerEq_head body 'i' _ h
      exact ⟨x, xs, hb, Or.inl hl⟩
    · obtain ⟨x, xs, hb, hl⟩ := lowerEq_head body 'i' _ h
      exact ⟨x, xs, hb, Or.inl hl⟩
    · obtain ⟨x, xs, hb, hl⟩ := lowerEq_head body 'n' _ h
      exact ⟨x, xs, hb, Or.inr (Or.inl hl)⟩
    · obtain ⟨mant, ex, rfl, hex, hcase⟩ := h
      rcases hcase with ⟨I, F, hm, hIne, hI, hF⟩ | ⟨F, hm, hFne, hF⟩ | ⟨hmne, hdig⟩
      · subst hm
        rcases I with _ | ⟨c, I'⟩
        · exact absurd rfl hIne
        · exact ⟨c, I' ++ '.' :: F ++ ex, by simp,
            Or.inr (Or.inr (Or.inl (hI c (by simp))))⟩
      · subst hm
        exact ⟨'.', F ++ ex, by simp, Or.inr (Or.inr (Or.inr rfl))⟩
      · rcases mant with _ | ⟨c, m'⟩
        · exact absurd rfl hmne
        · exact ⟨c, m' ++ ex, by simp, Or.inr (Or.inr (Or.inl (hdig c (by simp))))⟩
  obtain ⟨x, xs, hb, hprop⟩ := hx
  subst hb
  refine ⟨by simp, ?_, ?_⟩
  · simp only [List.head?_cons]
    intro hxe
    injection hxe with hxe'
    subst hxe'
    rcases hprop with h | h | h | h <;> exact absurd h (by decide)
  · simp only [List.head?_cons]
    intro hxe
    injection hxe with hxe'
    subst hxe'
    rcases hprop with h | h | h | h <;> exact absurd h (by decide)

lemma rustParseF64_ok_valid (s : String) (w : F64) (h : rustParseF64 s = .ok w) :
    validFloatString s := by
  simp only [rustParseF64] at h
  by_cases hnil : s.data = []
  · rw [if_pos hnil] at h
    exact absurd h (by simp)
  · rw [if_neg hnil] at h
    rcases splitSign_cases s.data with ⟨r, hl, hs⟩ | ⟨r, hl, hs⟩ | ⟨h1, h2, hs⟩ <;>
      simp only [hs] at h
    · exact ⟨['+'], r, by rw [hl, List.singleton_append], by simp,
        floatBody_cases r _ _ _ w h⟩
    · exact ⟨['-'], r, by rw [hl, List.singleton_append], by simp,
        floatBody_cases r _ _ _ w h⟩
    · exact ⟨[], s.data, by rw [List.nil_append], by simp,
        floatBody_cases s.data _ _ _ w h⟩

lemma rustParseF64_ok_of_body (s : String) (neg : Bool) (body : List Char)
    (hnil : ¬ s.data = []) (hs : splitSign s.data = (neg, body))
    (hbr : lowerEq body (['i', 'n', 'f']) = true ∨
           lowerEq body (['i', 'n', 'f', 'i', 'n', 'i', 't', 'y']) = true ∨
           lowerEq body (['n', 'a', 'n']) = true ∨ isNumberPart body) :
    ∃ w, rustParseF64 s = .ok w := by
  simp only [rustParseF64, if_neg hnil, hs]
  by_cases h1 : lowerEq body (['i', 'n', 'f']) = true ∨
      lowerEq body (['i', 'n', 'f', 'i', 'n', 'i', 't', 'y']) = true
  · exact ⟨_, by rw [if_pos h1]⟩
  · by_cases h2 : lowerEq body (['n', 'a', 'n']) = true
    · exact ⟨_, by rw [if_neg h1, if_pos h2]⟩
    · have hnum : isNumberPart body := by
        rcases hbr with h | h | h | h
        · exact absurd (Or.inl h) h1
        · exact absurd (Or.inr h) h1
        · exact absurd h h2
        · exact h
      obtain ⟨q, hq⟩ := isNumberPart_parseNumberF body hnum
      exact ⟨_, by rw [if_neg h1, if_neg h2, hq]⟩

lemma valid_rustParseF64_ok (s : String) (h : validFloatString s) :
    ∃ w, rustParseF64 s = .ok w := by
  obtain ⟨sg, body, hdata, hsg, hbr⟩ := h
  obtain ⟨hbody_ne, hhp, hhm⟩ := validBody_head body hbr
  have hnil : ¬ s.data = [] := by
    rw [hdata]
    intro hx
    exact hbody_ne (List.append_eq_nil.mp hx).2
  rcases hsg with h' | h' | h' <;> subst h'
  · rw [List.nil_append] at hdata
    refine rustParseF64_ok_of_body s false body hnil ?_ hbr
    rw [hdata]
    unfold splitSign
    rw [if_neg hhp, if_neg hhm]
  · rw [List.singleton_append] at hdata
    refine rustParseF64_ok_of_body s false body hnil ?_ hbr
    rw [hdata]
    rfl
  · rw [List.singleton_append] at hdata
    refine rustParseF64_ok_of_body s true body hnil ?_ hbr
    rw [hdata]
    rfl

/-- C7: frequency collection succeeds exactly on the strings accepted by
Rust's `f64` literal grammar (optional sign, then `inf`/`infinity`/`nan`
case-insensitively or a decimal number with optional fraction and
exponent), and fails with a ParseError on everything else; in particular
`"145800000"` yields the value 145 800 000 and `"abc"` fails. -/
theorem claim_c7 :
    (∀ s : String, (∃ v, get_frequency_input s = .ok v) ↔ validFloatString s)
    ∧ get_frequency_input ("145800000") = .ok (.finite (145800000 : ℚ))
    ∧ get_frequency_input ("abc") = .error (.frequency .invalidFloat) := by
  refine ⟨?_, by rfl, by rfl⟩
  intro s
  constructor
  · rintro ⟨v, hv⟩
    unfold get_frequency_input at hv
    cases hr : rustParseF64 s with
    | error e => rw [hr] at hv; exact absurd hv (by simp [Except.mapError])
    | ok w => exact rustParseF64_ok_valid s w hr
  · intro hval
    obtain ⟨w, hw⟩ := valid_rustParseF64_ok s hval
    exact ⟨w, by unfold get_frequency_input; rw [hw]; rfl⟩

/-! Completeness of the round-trip domain: every string that matches the
strict patterns character-for-character lies in `validDateStr` /
`validTimeStr`, so the round-trip claim covers all such strings. -/

lemma char_toNat_inj (c d : Char) (h : c.toNat = d.toNat) : c = d := by
  rcases c with ⟨⟨cv, hc⟩, pc⟩
  rcases d with ⟨⟨dv, hd⟩, pd⟩
  simp [Char.toNat, UInt32.toNat] at h
  subst h
  rfl

lemma isDigit_toNat (c : Char) (h : c.isDigit = true) : 48 ≤ c.toNat ∧ c.toNat ≤ 57 := by
  unfold Char.isDigit at h
  simp only [Bool.and_eq_true, decide_eq_true_eq] at h
  exact h

lemma digitChar_inv (c : Char) (h : c.isDigit = true) :
    Nat.digitChar (c.toNat - 48) = c := by
  obtain ⟨h1, h2⟩ := isDigit_toNat c h
  have hk : c.toNat - 48 < 10 := by omega
  apply char_toNat_inj
  rw [(digitChar_props _ hk).2.2.2.2.2.2]
  omega

lemma digitsToNat_append_singleton (cs : List Char) (c : Char) :
    digitsToNat (cs ++ [c]) = digitsToNat cs * 10 + (c.toNat - 48) := by
  unfold digitsToNat
  rw [List.foldl_append]
  rfl

lemma padDigits_of_digits (l : List Char) (hd : ∀ c ∈ l, c.isDigit = true) :
    padDigits l.length (digitsToNat l) = l ∧ digitsToNat l < 10 ^ l.length := by
  induction l using List.reverseRecOn with
  | nil => exact ⟨rfl, by simp [digitsToNat]⟩
  | append_singleton cs c ih =>
    have hdc : c.isDigit = true := hd c (by simp)
    have hcs : ∀ x ∈ cs, x.isDigit = true := fun x hx => hd x (by simp [hx])
    obtain ⟨ih1, ih2⟩ := ih hcs
    have hdig := isDigit_toNat c hdc
    have hval := digitsToNat_append_singleton cs c
    have hlen : (cs ++ [c]).length = cs.length + 1 := by simp
    constructor
    · rw [hlen, hval]
      simp only [padDigits]
      have hdiv : (digitsToNat cs * 10 + (c.toNat - 48)) / 10 = digitsToNat cs := by omega
      have hmod : (digitsToNat cs * 10 + (c.toNat - 48)) % 10 = c.toNat - 48 := by omega
      rw [hdiv, hmod, ih1, digitChar_inv c hdc]
    · rw [hlen, hval, pow_succ]
      omega

lemma validDateStr_of_pattern (y1 y2 y3 y4 m1 m2 d1 d2 : Char)
    (hy1d : y1.isDigit = true) (hy2d : y2.isDigit = true) (hy3d : y3.isDigit = true)
    (hy4d : y4.isDigit = true) (hm1d : m1.isDigit = true) (hm2d : m2.isDigit = true)
    (hd1d : d1.isDigit = true) (hd2d : d2.isDigit = true)
    (hm1 : 1 ≤ digitsToNat [m1, m2]) (hm2 : digitsToNat [m1, m2] ≤ 12)
    (hd1 : 1 ≤ digitsToNat [d1, d2])
    (hd2 : digitsToNat [d1, d2] ≤
      daysInMonth (digitsToNat [y1, y2, y3, y4] : Int) (digitsToNat [m1, m2])) :
    validDateStr ⟨[y1, y2, y3, y4, '-', m1, m2, '-', d1, d2]⟩ := by
  have hyd : ∀ c ∈ [y1, y2, y3, y4], c.isDigit = true := by
    intro c hc
    simp only [List.mem_cons, List.not_mem_nil, or_false] at hc
    rcases hc with rfl | rfl | rfl | rfl <;> assumption
  have hmd : ∀ c ∈ [m1, m2], c.isDigit = true := by
    intro c hc
    simp only [List.mem_cons, List.not_mem_nil, or_false] at hc
    rcases hc with rfl | rfl <;> assumption
  have hdd : ∀ c ∈ [d1, d2], c.isDigit = true := by
    intro c hc
    simp only [List.mem_cons, List.not_mem_nil, or_false] at hc
    rcases hc with rfl | rfl <;> assumption
  have hy1 : padDigits 4 (digitsToNat [y1, y2, y3, y4]) = [y1, y2, y3, y4] := by
    have := (padDigits_of_digits _ hyd).1
    simpa using this
  have hy2 : digitsToNat [y1, y2, y3, y4] < 10000 := by
    have := (padDigits_of_digits _ hyd).2
    simpa using this
  have hm1' : padDigits 2 (digitsToNat [m1, m2]) = [m1, m2] := by
    have := (padDigits_of_digits _ hmd).1
    simpa using this
  have hd1' : padDigits 2 (digitsToNat [d1, d2]) = [d1, d2] := by
    have := (padDigits_of_digits _ hdd).1
    simpa using this
  refine ⟨digitsToNat [y1, y2, y3, y4], digitsToNat [m1, m2], digitsToNat [d1, d2],
    by omega, hm1, hm2, hd1, hd2, ?_⟩
  have hdata : (fmtDate (digitsToNat [y1, y2, y3, y4]) (digitsToNat [m1, m2])
      (digitsToNat [d1, d2])).data = [y1, y2, y3, y4, '-', m1, m2, '-', d1, d2] := by
    rw [fmtDate_data _ _ _ hy2 (by omega) (by
        have := daysInMonth_le_31 (digitsToNat [y1, y2, y3, y4] : Int) (digitsToNat [m1, m2])
        omega),
      hy1, hm1', hd1']
    rfl
  cases hfmt : fmtDate (digitsToNat [y1, y2, y3, y4]) (digitsToNat [m1, m2])
      (digitsToNat [d1, d2]) with
  | mk l =>
    rw [hfmt] at hdata
    simp only at hdata
    rw [hdata]

lemma validTimeStr_of_pattern (h1 h2 m1 m2 s1 s2 : Char)
    (hh1d : h1.isDigit = true) (hh2d : h2.isDigit = true) (hm1d : m1.isDigit = true)
    (hm2d : m2.isDigit = true) (hs1d : s1.isDigit = true) (hs2d : s2.isDigit = true)
    (hh : digitsToNat [h1, h2] ≤ 23) (hm : digitsToNat [m1, m2] ≤ 59)
    (hs : digitsToNat [s1, s2] ≤ 59) :
    validTimeStr ⟨[h1, h2, ':', m1, m2, ':', s1, s2]⟩ := by
  have hhd : ∀ c ∈ [h1, h2], c.isDigit = true := by
    intro c hc
    simp only [List.mem_cons, List.not_mem_nil, or_false] at hc
    rcases hc with rfl | rfl <;> assumption
  have hmd : ∀ c ∈ [m1, m2], c.isDigit = true := by
    intro c hc
    simp only [List.mem_cons, List.not_mem_nil, or_false] at hc
    rcases hc with rfl | rfl <;> assumption
  have hsd : ∀ c ∈ [s1, s2], c.isDigit = true := by
    intro c hc
    simp only [List.mem_cons, List.not_mem_nil, or_false] at hc
    rcases hc with rfl | rfl <;> assumption
  have hh1 : padDigits 2 (digitsToNat [h1, h2]) = [h1, h2] := by
    have := (padDigits_of_digits _ hhd).1
    simpa using this
  have hm1' : padDigits 2 (digitsToNat [m1, m2]) = [m1, m2] := by
    have := (padDigits_of_digits _ hmd).1
    simpa using this
  have hs1' : padDigits 2 (digitsToNat [s1, s2]) = [s1, s2] := by
    have := (padDigits_of_digits _ hsd).1
    simpa using this
  refine ⟨digitsToNat [h1, h2], digitsToNat [m1, m2], digitsToNat [s1, s2],
    hh, hm, hs, ?_⟩
  have hdata : (fmtTime (digitsToNat [h1, h2]) (digitsToNat [m1, m2])
      (digitsToNat [s1, s2])).data = [h1, h2, ':', m1, m2, ':', s1, s2] := by
    rw [fmtTime_data _ _ _ (by omega) (by omega) (by omega), hh1, hm1', hs1']
    rfl
  cases hfmt : fmtTime (digitsToNat [h1, h2]) (digitsToNat [m1, m2])
      (digitsToNat [s1, s2]) with
  | mk l =>
    rw [hfmt] at hdata
    simp only at hdata
    rw [hdata]
